import Mathlib

/-!
Verification of the speech-segmentation / incremental-translation pipeline of
the Teams subtitle-translation content script.

Shallow embedding conventions:
* JS strings are `List Char`; JS `Date.now()` timestamps are `Nat` values
  passed in explicitly; signed time arithmetic is done in `Int`.
* JS objects keyed by speaker id are `List Char → Option _` maps; the insertion
  ordered JS `Map` used for the translation cache is an association list.
* Network I/O is an explicit oracle argument (`FetchOutcome` per fetch attempt,
  `Option (List Char)` for a whole translation call's result); `await` points
  are split into a pre-await function and an explicit resume function.
* Timers (`setTimeout` handles) are modelled as recorded deadlines / pending
  flags; a timer that is due fires before the next processing tick.

Sources embedded: `src/src/utils.js`, `src/src/subtitle-processor.js`,
`src/src/translation-service.js`, `src/src/content.js`, `src/src/config.js`,
and the alternate-revision module `src/unnamed/part_003` (utility heuristics:
`getSpeakerId`, `isContinuationOfSpeech`, `levenshteinDistance`).
-/

/-! ## Configuration constants (src/src/config.js) -/

/-- `Config.SPEECH_SEGMENT_TIMEOUT` (ms), src/src/config.js. -/
def SPEECH_SEGMENT_TIMEOUT : Nat := 2000

/-- `Config.TRANSLATION_THROTTLE` (ms), src/src/config.js. -/
def TRANSLATION_THROTTLE : Nat := 500

/-- `Config.MAX_RETRIES`, src/src/config.js. -/
def MAX_RETRIES : Nat := 1

/-! ## String sentinels used by the pipeline -/

/-- The pending sentinel `"Translating..."`. -/
def translatingChars : List Char := "Translating...".data

/-- The short-text placeholder `"..."`. -/
def ellipsisChars : List Char := "...".data

/-- The failure sentinel `"[Translation unavailable]"`. -/
def unavailableChars : List Char := "[Translation unavailable]".data

/-- Response status value `"success"`. -/
def successChars : List Char := "success".data

/-- Response status value `"error"`. -/
def errorChars : List Char := "error".data

/-- Default display mode `"popup"` (src/src/content.js). -/
def popupChars : List Char := "popup".data

/-- `Config.DEFAULT_INPUT_LANG` (`"auto"`). -/
def defaultInputLangChars : List Char := "auto".data

/-- `Config.DEFAULT_OUTPUT_LANG` (`"en"`). -/
def defaultOutputLangChars : List Char := "en".data

/-- Connection-failure message returned by `startTranslation` (src/src/content.js). -/
def connectFailChars : List Char :=
  "Failed to connect to translation API. Please check your API key or try again later.".data

/-- `"Translation not active"` message of `stopTranslation` (src/src/content.js). -/
def notActiveChars : List Char := "Translation not active".data

/-- The id key `"speaker_"` used by `getSpeakerId`. -/
def speakerTagChars : List Char := "speaker_".data

/-! ## Generic string / map helpers (embedding JS primitives) -/

/-- JS `String.prototype.startsWith`: `startsWithL s pat` is true when `s`
begins with `pat`. -/
def startsWithL : List Char → List Char → Bool
  | _, [] => true
  | [], _ :: _ => false
  | a :: as, b :: bs => a == b && startsWithL as bs

/-- JS `String.prototype.includes`: `jsIncludes big pat` is true when `pat`
occurs contiguously inside `big` (the empty pattern always occurs). -/
def jsIncludes : List Char → List Char → Bool
  | big, pat =>
    if startsWithL big pat then true
    else match big with
      | [] => false
      | _ :: rest => jsIncludes rest pat

/-- Mathematical substring relation: `SubstrOf pat big` holds when `big` is
`pre ++ pat ++ post` for some `pre`, `post`. -/
def SubstrOf (pat big : List Char) : Prop :=
  ∃ pre post, big = pre ++ pat ++ post

/-- JS `String.prototype.trim` on a character list (used on the API response,
src/src/translation-service.js line 144). -/
def trimL (s : List Char) : List Char :=
  ((s.dropWhile Char.isWhitespace).reverse.dropWhile Char.isWhitespace).reverse

/-- Association-list lookup, embedding `Map.prototype.get`/`has` for the
insertion-ordered translation cache. -/
def alookup : List (List Char × List Char) → List Char → Option (List Char)
  | [], _ => none
  | (k, v) :: rest, key => if k = key then some v else alookup rest key

/-- `Map.prototype.set`: updates an existing key in place (preserving its
insertion position, as a JS `Map` does) or appends a new entry at the end. -/
def mapSet : List (List Char × List Char) → List Char → List Char → List (List Char × List Char)
  | [], k, v => [(k, v)]
  | (k', v') :: rest, k, v =>
    if k' = k then (k', v) :: rest else (k', v') :: mapSet rest k v

/-- Pointwise update of an `Option`-valued speaker map (JS property write). -/
def updF {α : Type} (m : List Char → Option α) (k : List Char) (v : Option α) :
    List Char → Option α :=
  fun s => if s = k then v else m s

/-- Pointwise update of a `Bool`-valued speaker map (timer-pending flags). -/
def updB (m : List Char → Bool) (k : List Char) (v : Bool) : List Char → Bool :=
  fun s => if s = k then v else m s

/-- Remove a key from an association list of timer deadlines
(`clearActiveTimerForSpeaker`, src/src/translation-service.js). -/
def aremove (l : List (List Char × Nat)) (k : List Char) : List (List Char × Nat) :=
  l.filter (fun kv => kv.1 ≠ k)

/-- Record a timer deadline for a key, clearing any previous one first
(`setActiveTimerForSpeaker`, src/src/translation-service.js). -/
def aset (l : List (List Char × Nat)) (k : List Char) (d : Nat) : List (List Char × Nat) :=
  aremove l k ++ [(k, d)]

/-! ## `getSpeakerId` (src/src/utils.js lines 38-40)

`` `speaker_${speakerName.replace(/[^a-z0-9]/gi, '_')}` `` — the regex is
case-insensitive, so ASCII letters of either case and digits are kept and every
other character is replaced by an underscore.  Note the displayed name is NOT
lower-cased by this implementation. -/

/-- Character-level action of the regex replace `/[^a-z0-9]/gi → '_'`. -/
def replaceNonAlnum (c : Char) : Char :=
  if c.isAlpha || c.isDigit then c else '_'

/-- `getSpeakerId` from src/src/utils.js. -/
def getSpeakerId (speakerName : List Char) : List Char :=
  speakerTagChars ++ speakerName.map replaceNonAlnum

/-- Modelled from the spec: the spec sentence says the key is obtained by
"lower-casing" the name and replacing every non-alphanumeric character.  This
definition follows the spec's words, for comparison with `getSpeakerId`. -/
def specLowerSpeakerId (speakerName : List Char) : List Char :=
  speakerTagChars ++ (speakerName.map Char.toLower).map replaceNonAlnum

/-! ## `isContinuationOfSpeech` (src/src/utils.js lines 49-74)

This revision classifies continuation purely by a punctuation / lower-case
heuristic over the last stored segment and the first character of the new
text.  Its speaker entries carry a `segments` array and a `lastTime`. -/

/-- The fields of an `activeSpeakers[speaker]` entry that
src/src/utils.js `isContinuationOfSpeech` reads. -/
structure ContEntry where
  segments : List (List Char)
  lastTime : Nat

namespace Utils

/-- `isContinuationOfSpeech` from src/src/utils.js.  `Date.now()` is the `now`
argument.  The JS truthiness test `!activeSpeakers[speaker].lastTime` is
`lastTime = 0`.  (On an entry with an empty `segments` array the JS code would
throw; that case returns `false` here and is never exercised.) -/
def isContinuationOfSpeech (activeSpeakers : List Char → Option ContEntry)
    (speaker text : List Char) (now : Nat) : Bool :=
  match activeSpeakers speaker with
  | none => false
  | some e =>
    if e.lastTime = 0 then false
    else if (SPEECH_SEGMENT_TIMEOUT : Int) < (now : Int) - (e.lastTime : Int) then false
    else
      match e.segments.getLast? with
      | none => false
      | some lastSegment =>
        let isPunctuation : Bool :=
          match lastSegment.getLast? with
          | some lastChar => ['.', '!', '?', ':', ';'].contains lastChar
          | none => false
        let startsWithLowerCase : Bool :=
          match text with
          | [] => false
          | c :: _ => c.toLower == c && c.toUpper != c
        !isPunctuation && startsWithLowerCase

end Utils

/-! ## part_003 heuristics (src/unnamed/part_003)

The alternate utility revision: substring / edit-distance based continuation
test and the dynamic-programming `levenshteinDistance`. -/

/-- The fields of an `activeSpeakers[speaker]` entry that the part_003
`isContinuationOfSpeech` reads (`fullText`, `lastTime`). -/
structure P3Entry where
  fullText : List Char
  lastTime : Nat

/-- One cell row step of the JS Levenshtein matrix (part_003 lines 117-126):
given `prev = matrix[i]` as a function of the column index, `levCell a b prev i`
computes `matrix[i+1]`.  `matrix[i+1][0] = i+1`; for `j+1` the cell is the
minimum of deletion `matrix[i][j+1]+1`, insertion `matrix[i+1][j]+1` and
substitution `matrix[i][j] + cost` with `cost = (a[j] === b[i] ? 0 : 1)`. -/
def levCell (a b : List Char) (prev : Nat → Nat) (i : Nat) : Nat → Nat
  | 0 => i + 1
  | j + 1 =>
    min (prev (j + 1) + 1)
      (min (levCell a b prev i j + 1)
        (prev j + (if a[j]? = b[i]? then 0 else 1)))

/-- The JS Levenshtein matrix (part_003 lines 106-126): `levMatrix a b i j` is
`matrix[i][j]`, built row by row exactly as the JS double loop does. -/
def levMatrix (a b : List Char) : Nat → Nat → Nat
  | 0 => fun j => j
  | i + 1 => levCell a b (levMatrix a b i) i

/-- `levenshteinDistance` from part_003 lines 102-129: early returns for empty
inputs, otherwise the bottom-right matrix cell `matrix[b.length][a.length]`. -/
def levenshteinDistance (a b : List Char) : Nat :=
  if a.length = 0 then b.length
  else if b.length = 0 then a.length
  else levMatrix a b b.length a.length

namespace Utils3

/-- `isContinuationOfSpeech` from part_003 lines 60-94.  The JS float test
`distance / maxLength < 0.3` is embedded as the exact rational comparison
`10 * distance < 3 * maxLength`: for every representable string length the
IEEE-754 double comparison agrees with the exact one, because the closest
fraction `d/m` can come to `3/10` without equalling it is `1/(10*m)`, which
dwarfs double rounding error for any feasible `m`. -/
def isContinuationOfSpeech (activeSpeakers : List Char → Option P3Entry)
    (speaker text : List Char) (now : Nat) : Bool :=
  match activeSpeakers speaker with
  | none => false
  | some e =>
    if e.fullText = [] then false
    else if (SPEECH_SEGMENT_TIMEOUT : Int) < (now : Int) - (e.lastTime : Int) then false
    else if jsIncludes e.fullText text || jsIncludes text e.fullText then true
    else if startsWithL text e.fullText then true
    else if 10 * levenshteinDistance e.fullText text <
              3 * max e.fullText.length text.length then true
    else false

end Utils3

/-! ## Reference presentation of the Levenshtein recursion

`levR ra rb` is the textbook right-to-left recursion; `levMatrix` is shown
equal to it on reversed prefixes, and `levR` is shown to compute the minimum
number of single-character edits. -/

/-- Head-recursive Levenshtein distance used as the proof-side presentation of
the matrix (operating on reversed strings). -/
def levR : List Char → List Char → Nat
  | [], ys => ys.length
  | x :: xs, [] => (x :: xs).length
  | x :: xs, y :: ys =>
    min (levR (x :: xs) ys + 1)
      (min (levR xs (y :: ys) + 1)
        (levR xs ys + (if x = y then 0 else 1)))
termination_by xs ys => xs.length + ys.length

/-- One single-character edit: insertion, deletion or substitution at an
arbitrary position. -/
inductive EditStep : List Char → List Char → Prop
  | ins (pre post : List Char) (c : Char) : EditStep (pre ++ post) (pre ++ c :: post)
  | del (pre post : List Char) (c : Char) : EditStep (pre ++ c :: post) (pre ++ post)
  | subst (pre post : List Char) (c d : Char) : EditStep (pre ++ c :: post) (pre ++ d :: post)

/-- `EditN n xs ys`: `ys` is reachable from `xs` by exactly `n` single-character
edits. -/
inductive EditN : Nat → List Char → List Char → Prop
  | zero (xs : List Char) : EditN 0 xs xs
  | succ (n : Nat) (xs ys zs : List Char) :
      EditStep xs ys → EditN n ys zs → EditN (n + 1) xs zs

/-! ## Translation service state (src/src/translation-service.js)

Module-level mutable state: `lastTranslationRequestTime`, `pendingTranslations`,
`activeTimers` (only the `translate_` flags are relevant here; the `finalize_`
timers live with the subtitle-processor model), `translationRetryCount` and the
insertion-ordered `translationCache` `Map`. -/

/-- A `pendingTranslations[speakerId]` slot (`{ text, inputLang, outputLang }`). -/
structure PendingT where
  text : List Char
  inputLang : List Char
  outputLang : List Char

/-- The translation-service module state. -/
structure TransState where
  lastTranslationRequestTime : List Char → Option Nat
  pendingTranslations : List Char → Option PendingT
  translateTimerPending : List Char → Bool
  translationRetryCount : List Char → Nat
  translationCache : List (List Char × List Char)

/-- Outcome of one `fetch` attempt inside the retry loop:
`ok content` — HTTP success whose parsed body has the expected structure and
`choices[0].message.content = content`; `okMalformed` — HTTP success but the
parsed body fails the structure check (throws after the loop); `fail` — network
error, timeout or non-2xx status (throws inside the loop, triggering a retry). -/
inductive FetchOutcome
  | ok (content : List Char)
  | okMalformed
  | fail

/-- The `while (retryAttempt <= maxRetries)` fetch loop: walks the per-attempt
outcomes, returning the translated content (`none` on a thrown error) and the
number of `fetch` calls actually issued. -/
def runAttempts : List FetchOutcome → Option (List Char) × Nat
  | [] => (none, 0)
  | .ok c :: _ => (some c, 1)
  | .okMalformed :: _ => (none, 1)
  | .fail :: rest =>
    let r := runAttempts rest
    (r.1, r.2 + 1)

/-- The cache key `` `${inputLang}:${outputLang}:${text}` ``. -/
def cacheKeyOf (inputLang outputLang text : List Char) : List Char :=
  inputLang ++ ':' :: (outputLang ++ ':' :: text)

/-- Eviction after insertion (src/src/translation-service.js lines 149-154):
if the cache size exceeds 500, the first 100 keys in insertion order are
deleted. -/
def cacheEvict (c : List (List Char × List Char)) : List (List Char × List Char) :=
  if 500 < c.length then c.drop 100 else c

/-- Result of a `translateText` call: the new module state, the returned value
(`none` models the JS `null` returned on the throttled paths) and the number of
network `fetch` calls issued. -/
structure TransOut where
  state : TransState
  ret : Option (List Char)
  fetches : Nat

/-- `translateText` from src/src/translation-service.js lines 20-176, as one
atomic step (the single-threaded script never interleaves two activations for
the same speaker within the modelled state reads and writes).  `now` is
`Date.now()` at entry; `outcomes` is the network oracle for this call's fetch
attempts (only the first `MAX_RETRIES + 1` entries can be consumed). -/
def translateText (st : TransState) (speakerId text inputLang outputLang : List Char)
    (now : Nat) (outcomes : List FetchOutcome) : TransOut :=
  if text.length < 2 then ⟨st, some text, 0⟩
  else
    let cacheKey := cacheKeyOf inputLang outputLang text
    match alookup st.translationCache cacheKey with
    | some v => ⟨st, some v, 0⟩
    | none =>
      let throttled : Bool :=
        match st.lastTranslationRequestTime speakerId with
        | some last => (now : Int) - (last : Int) < (TRANSLATION_THROTTLE : Int)
        | none => false
      if throttled then
        match st.pendingTranslations speakerId with
        | some pending =>
          -- replace only the `.text` of the existing pending slot
          ⟨{ st with
              pendingTranslations :=
                updF st.pendingTranslations speakerId (some { pending with text := text }) },
            none, 0⟩
        | none =>
          ⟨{ st with
               pendingTranslations :=
                 updF st.pendingTranslations speakerId (some ⟨text, inputLang, outputLang⟩),
               translateTimerPending := updB st.translateTimerPending speakerId true },
            none, 0⟩
      else
        -- dispatch: record the request time (the retry counter is initialised
        -- to 0 if absent, which the total `Nat`-valued map already expresses)
        let st₁ := { st with
          lastTranslationRequestTime := updF st.lastTranslationRequestTime speakerId (some now) }
        match runAttempts (outcomes.take (MAX_RETRIES + 1)) with
        | (some content, n) =>
          let translated := trimL content
          let cache₁ := cacheEvict (mapSet st₁.translationCache cacheKey translated)
          ⟨{ st₁ with
               translationCache := cache₁,
               translationRetryCount := fun s => if s = speakerId then 0
                 else st₁.translationRetryCount s },
            some translated, n⟩
        | (none, n) =>
          let rc := st₁.translationRetryCount speakerId + 1
          let st₂ := { st₁ with
            translationRetryCount := fun s => if s = speakerId then rc
              else st₁.translationRetryCount s }
          if 3 < rc then ⟨st₂, some unavailableChars, n⟩
          else ⟨st₂, some translatingChars, n⟩

/-- `clearTranslationTimers` from src/src/translation-service.js lines 220-233:
resets every piece of throttling / retry state but deliberately keeps the
translation cache ("No need to clear translation cache - it can be reused"). -/
def clearTranslationTimers (st : TransState) : TransState :=
  { lastTranslationRequestTime := fun _ => none,
    pendingTranslations := fun _ => none,
    translateTimerPending := fun _ => false,
    translationRetryCount := fun _ => 0,
    translationCache := st.translationCache }

/-- The initial translation-service state (fresh module load). -/
def initialTransState : TransState :=
  { lastTranslationRequestTime := fun _ => none,
    pendingTranslations := fun _ => none,
    translateTimerPending := fun _ => false,
    translationRetryCount := fun _ => 0,
    translationCache := [] }

/-! ## Subtitle processor state (src/src/subtitle-processor.js)

Module-level mutable state: `activeSpeakers`, `knownSubtitles`,
`translatedUtterances`, `lastFullTextBySpeaker`, `isClearing`, the per-speaker
`finalize` timers (held in the translation-service `activeTimers` table in the
source, modelled here as recorded deadlines) and the `translationTimers`
pending flags.  The DOM extraction and the upstream rate limiter (lines
203-230) are outside the modelled tracker: a call below corresponds to one
freshly extracted caption fragment reaching the per-speaker processing code
(lines 241-331). -/

/-- An `activeSpeakers[speakerId]` entry (src/src/subtitle-processor.js
lines 307-315 / 541-549). -/
structure SpeakerEntry where
  speaker : List Char
  fullText : List Char
  lastTime : Nat
  translatedText : List Char
  utteranceId : Nat
  active : Bool
  avatar : Option (List Char)

/-- A `translatedUtterances[speakerId]` entry (src/src/subtitle-processor.js
lines 437-446 / 518-527).  `timestamp` holds the `Date` value at creation. -/
structure FinalUtterance where
  id : Nat
  speaker : List Char
  speakerId : List Char
  original : List Char
  translated : List Char
  timestamp : Nat
  active : Bool
  avatar : Option (List Char)

/-- The subtitle-processor module state. -/
structure SubState where
  activeSpeakers : List Char → Option SpeakerEntry
  knownSubtitles : List (List Char)
  translatedUtterances : List Char → Option FinalUtterance
  lastFullTextBySpeaker : List Char → Option (List Char)
  isClearing : Bool
  finalizeDeadlines : List (List Char × Nat)
  translationTimerPending : List Char → Bool

/-- The initial subtitle-processor state (fresh module load). -/
def initialSubState : SubState :=
  { activeSpeakers := fun _ => none,
    knownSubtitles := [],
    translatedUtterances := fun _ => none,
    lastFullTextBySpeaker := fun _ => none,
    isClearing := false,
    finalizeDeadlines := [],
    translationTimerPending := fun _ => false }

/-- `scheduleTranslation` from src/src/subtitle-processor.js lines 361-400:
cancels any pending translation timer, resets a placeholder `translatedText`
to `"Translating..."`, and schedules a new translation timer.  (Which of
`throttledTranslate` / `translateAndUpdateUtterance` the timer will invoke,
and with what delay, only matters when the timer fires; the tracked state
effect is the pending flag.) -/
def scheduleTranslation (st : SubState) (speakerId : List Char) : SubState :=
  let st₀ := { st with
    translationTimerPending := updB st.translationTimerPending speakerId false }
  let st₁ :=
    match st₀.activeSpeakers speakerId with
    | some u =>
      if u.translatedText = [] ∨ u.translatedText = ellipsisChars ∨
          u.translatedText = translatingChars then
        { st₀ with
            activeSpeakers :=
              updF st₀.activeSpeakers speakerId
                (some { u with translatedText := translatingChars }) }
      else st₀
    | none => st₀
  { st₁ with
      translationTimerPending := updB st₁.translationTimerPending speakerId true }

/-- The continuation branch of `processSubtitles`
(src/src/subtitle-processor.js lines 272-304): refresh `lastTime`; if the new
text is longer or different, replace `fullText` (and record it in
`lastFullTextBySpeaker`, adopting an avatar if one was missing); reset the
finalize timer; schedule a translation. -/
def continueSpeech (st : SubState) (speakerId : List Char) (u : SpeakerEntry)
    (speakerAvatar : Option (List Char)) (text : List Char) (now : Nat) : SubState :=
  let u₁ := { u with lastTime := now }
  let stA := { st with activeSpeakers := updF st.activeSpeakers speakerId (some u₁) }
  let stB :=
    if u₁.fullText.length < text.length ∨ u₁.fullText ≠ text then
      let u₂ := { u₁ with
        fullText := text,
        avatar := if speakerAvatar.isSome ∧ u₁.avatar = none then speakerAvatar
          else u₁.avatar }
      { stA with
          activeSpeakers := updF stA.activeSpeakers speakerId (some u₂),
          lastFullTextBySpeaker :=
            updF stA.lastFullTextBySpeaker speakerId (some text) }
    else stA
  let stC := { stB with
    finalizeDeadlines := aset stB.finalizeDeadlines speakerId (now + SPEECH_SEGMENT_TIMEOUT) }
  scheduleTranslation stC speakerId

/-- The new-speech branch of `processSubtitles`
(src/src/subtitle-processor.js lines 305-330): create a fresh active entry
with `translatedText = "Translating..."` and `utteranceId = now`, record the
text, arm the finalize timer and schedule a translation. -/
def newSpeech (st : SubState) (speakerId speakerName : List Char)
    (speakerAvatar : Option (List Char)) (text : List Char) (now : Nat) : SubState :=
  let u : SpeakerEntry :=
    { speaker := speakerName, fullText := text, lastTime := now,
      translatedText := translatingChars, utteranceId := now, active := true,
      avatar := speakerAvatar }
  let st₁ := { st with
    activeSpeakers := updF st.activeSpeakers speakerId (some u),
    lastFullTextBySpeaker := updF st.lastFullTextBySpeaker speakerId (some text),
    finalizeDeadlines := aset st.finalizeDeadlines speakerId (now + SPEECH_SEGMENT_TIMEOUT) }
  scheduleTranslation st₁ speakerId

/-- The per-speaker stage of `processSubtitles`
(src/src/subtitle-processor.js lines 261-331): skip when the text equals the
speaker's last recorded complete text, otherwise continue or start a speech. -/
def observeText (st : SubState) (speakerName : List Char)
    (speakerAvatar : Option (List Char)) (text : List Char) (now : Nat) : SubState :=
  let speakerId := getSpeakerId speakerName
  if st.lastFullTextBySpeaker speakerId = some text then st
  else
    match st.activeSpeakers speakerId with
    | some u => continueSpeech st speakerId u speakerAvatar text now
    | none => newSpeech st speakerId speakerName speakerAvatar text now

/-- `processSubtitles` from src/src/subtitle-processor.js lines 197-341, for
one extracted caption fragment: inactive / clearing guard (line 199), the
known-subtitles dedup of the container loop (lines 241-258, which also adds
the fresh text to the known set), then the per-speaker stage. -/
def processSubtitles (isTranslationActive : Bool) (st : SubState)
    (speakerName : List Char) (speakerAvatar : Option (List Char))
    (text : List Char) (now : Nat) : SubState :=
  if ¬isTranslationActive ∨ st.isClearing then st
  else if text = [] ∨ text ∈ st.knownSubtitles then st
  else
    observeText { st with knownSubtitles := text :: st.knownSubtitles }
      speakerName speakerAvatar text now

/-- `finalizeSpeech` from src/src/subtitle-processor.js lines 488-559 as one
atomic step, with the final forced translation attempt's result supplied by
the oracle `tr` (`none` models both a thrown error and a `null` return; a
returned empty string is falsy and also yields the unavailable sentinel).
After recording the finalized utterance (unless clearing), the speaker's slot
is replaced by a fresh inactive entry with empty text, keeping the speaker's
name and avatar warm, and the finalize timer is cleared. -/
def finalizeSpeech (st : SubState) (speakerId : List Char) (now : Nat)
    (tr : Option (List Char)) : SubState :=
  match st.activeSpeakers speakerId with
  | none => st
  | some u =>
    let st₀ := { st with
      translationTimerPending := updB st.translationTimerPending speakerId false }
    let u₁ :=
      if u.translatedText = [] ∨ u.translatedText = ellipsisChars ∨
          u.translatedText = translatingChars then
        { u with translatedText :=
            match tr with
            | some s => if s = [] then unavailableChars else s
            | none => unavailableChars }
      else u
    let st₁ :=
      if st₀.isClearing then st₀
      else
        { st₀ with
            translatedUtterances :=
              updF st₀.translatedUtterances speakerId
                (some { id := u₁.utteranceId, speaker := u₁.speaker,
                        speakerId := speakerId, original := u₁.fullText,
                        translated := u₁.translatedText, timestamp := now,
                        active := false, avatar := u₁.avatar }) }
    { st₁ with
        activeSpeakers :=
          updF st₁.activeSpeakers speakerId
            (some { speaker := u₁.speaker, fullText := [], lastTime := 0,
                    translatedText := [], utteranceId := now, active := false,
                    avatar := u₁.avatar }),
        finalizeDeadlines := aremove st₁.finalizeDeadlines speakerId }

/-- Fire every finalize timer that is due at time `now` (the event-loop step
between two processing ticks); `tr` is the oracle for any forced translation
attempt made while finalizing. -/
def fireDue (st : SubState) (now : Nat) (tr : Option (List Char)) : SubState :=
  st.finalizeDeadlines.foldl
    (fun s kd => if kd.2 ≤ now then finalizeSpeech s kd.1 now tr else s) st

/-- One tracker tick for a fragment `(text, time)`: due finalize timers fire
first, then the fragment is processed. -/
def tick (speakerName : List Char) (speakerAvatar : Option (List Char))
    (tr : Option (List Char)) (st : SubState) (ft : List Char × Nat) : SubState :=
  processSubtitles true (fireDue st ft.2 tr) speakerName speakerAvatar ft.1 ft.2

/-- Process a whole sequence of fragments from one speaker. -/
def runFrags (speakerName : List Char) (speakerAvatar : Option (List Char))
    (tr : Option (List Char)) (st : SubState) (frags : List (List Char × Nat)) : SubState :=
  frags.foldl (fun s ft => tick speakerName speakerAvatar tr s ft) st

/-- `resetKnownSubtitles` from src/src/subtitle-processor.js lines 36-45:
empties the known-subtitles set and the per-speaker last-text table. -/
def resetKnownSubtitles (st : SubState) : SubState :=
  { st with knownSubtitles := [], lastFullTextBySpeaker := fun _ => none }

/-- `clearSubtitleData` from src/src/subtitle-processor.js lines 564-602:
raises the clearing flag, drops every utterance map, timer (each recorded
finalize deadline belongs to an active speaker, and the source clears the
finalize timer of every active speaker) and the known-subtitles set.  The
flag is lowered 500 ms later by `clearingDone`. -/
def clearSubtitleData (_st : SubState) : SubState :=
  { activeSpeakers := fun _ => none,
    knownSubtitles := [],
    translatedUtterances := fun _ => none,
    lastFullTextBySpeaker := fun _ => none,
    isClearing := true,
    finalizeDeadlines := [],
    translationTimerPending := fun _ => false }

/-- The deferred `isClearing = false` reset scheduled by `clearSubtitleData`
(src/src/subtitle-processor.js lines 598-600). -/
def clearingDone (st : SubState) : SubState :=
  { st with isClearing := false }

/-- The post-`await` continuation of `translateAndUpdateUtterance`
(src/src/subtitle-processor.js lines 426-459): runs when the in-flight
`translateText` call resolves with `tr`.  `textToTranslate` is the snapshot
taken before the `await`.  The handler re-checks `activeSpeakers[speakerId]`
before mutating anything; a falsy or unchanged result is dropped. -/
def translateAndUpdateResume (st : SubState) (speakerId textToTranslate : List Char)
    (tr : Option (List Char)) (now : Nat) : SubState :=
  match st.activeSpeakers speakerId with
  | none => st
  | some u =>
    match tr with
    | none => st
    | some translated =>
      if translated = [] ∨ translated = u.translatedText then st
      else
        let u' := { u with translatedText := translated }
        let st₁ := { st with
          activeSpeakers := updF st.activeSpeakers speakerId (some u'),
          translatedUtterances :=
            updF st.translatedUtterances speakerId
              (some { id := u.utteranceId, speaker := u.speaker,
                      speakerId := speakerId, original := u.fullText,
                      translated := translated, timestamp := now,
                      active := true, avatar := u.avatar }) }
        if u.active ∧ 20 < textToTranslate.length then
          { st₁ with
              translationTimerPending :=
                updB st₁.translationTimerPending speakerId true }
        else st₁

/-- The post-`await` continuation of `finalizeSpeech`
(src/src/subtitle-processor.js lines 503-558) for the case in which the
finalization had to await a forced translation: `snapshot` is the
`utterance` local captured before the `await`, `tr` the resolved result.
Unlike `translateAndUpdateResume`, this continuation never re-checks
`activeSpeakers[speakerId]`; it only consults the `isClearing` flag before
re-adding the finalized utterance, and it re-installs a fresh speaker slot
unconditionally. -/
def finalizeResume (st : SubState) (speakerId : List Char) (snapshot : SpeakerEntry)
    (tr : Option (List Char)) (now : Nat) : SubState :=
  let u₁ := { snapshot with
    translatedText :=
      match tr with
      | some s => if s = [] then unavailableChars else s
      | none => unavailableChars }
  let st₁ :=
    if st.isClearing then st
    else
      { st with
          translatedUtterances :=
            updF st.translatedUtterances speakerId
              (some { id := u₁.utteranceId, speaker := u₁.speaker,
                      speakerId := speakerId, original := u₁.fullText,
                      translated := u₁.translatedText, timestamp := now,
                      active := false, avatar := u₁.avatar }) }
  { st₁ with
      activeSpeakers :=
        updF st₁.activeSpeakers speakerId
          (some { speaker := u₁.speaker, fullText := [], lastTime := 0,
                  translatedText := [], utteranceId := now, active := false,
                  avatar := u₁.avatar }),
      finalizeDeadlines := aremove st₁.finalizeDeadlines speakerId }

/-! ## Host message contract (src/src/content.js lines 340-408)

The `chrome.runtime.onMessage` listener.  JS response objects are modelled as
a record of optional fields, so absent fields are `none`. -/

/-- Content-script state read and written by the message listener. -/
structure ContentState where
  inputLang : List Char
  outputLang : List Char
  isTranslationActive : Bool
  displayMode : List Char
  connectionFailed : Bool
  connectionRetryCount : Nat

/-- The four host messages. -/
inductive HostMsg
  | startTranslation (inputLang outputLang displayMode : Option (List Char))
  | stopTranslation
  | checkStatus
  | setDisplayMode (displayMode : Option (List Char))

/-- A response object sent through `sendResponse`; every field is optional. -/
structure HostResponse where
  status : Option (List Char)
  message : Option (List Char)
  isActive : Option Bool
  inputLang : Option (List Char)
  outputLang : Option (List Char)
  displayMode : Option (List Char)

/-- The empty response object. -/
def emptyResponse : HostResponse :=
  { status := none, message := none, isActive := none,
    inputLang := none, outputLang := none, displayMode := none }

/-- JS `value || defaultValue` on an optional string message field (both an
absent field and an empty string are falsy). -/
def orDefault (v : Option (List Char)) (d : List Char) : List Char :=
  match v with
  | some s => if s = [] then d else s
  | none => d

/-- `startTranslation` from src/src/content.js lines 110-206.  The API
connectivity probe's outcome is the `connectionOk` oracle
(`verifyConnection` / `checkApiConnection`).  Returns the new state and the
response object the listener forwards. -/
def startTranslation (st : ContentState) (connectionOk : Bool) :
    ContentState × HostResponse :=
  if st.isTranslationActive then
    (st, { emptyResponse with status := some successChars })
  else if connectionOk then
    ({ st with isTranslationActive := true, connectionFailed := false,
               connectionRetryCount := 0 },
      { emptyResponse with status := some successChars })
  else
    -- verifyConnection records the failure (and, past the retry limit, calls
    -- stopTranslation, a no-op while inactive), then startTranslation
    -- returns the error response
    ({ st with connectionFailed := true,
               connectionRetryCount := st.connectionRetryCount + 1 },
      { emptyResponse with status := some errorChars,
                           message := some connectFailChars })

/-- `stopTranslation` from src/src/content.js lines 275-314. -/
def stopTranslation (st : ContentState) : ContentState × HostResponse :=
  if st.isTranslationActive then
    ({ st with isTranslationActive := false },
      { emptyResponse with status := some successChars })
  else
    (st, { emptyResponse with status := some errorChars,
                              message := some notActiveChars })

/-- The `chrome.runtime.onMessage` listener dispatch
(src/src/content.js lines 340-408). -/
def handleMessage (st : ContentState) (msg : HostMsg) (connectionOk : Bool) :
    ContentState × HostResponse :=
  match msg with
  | .startTranslation il ol dm =>
    let st₁ := { st with
      inputLang := orDefault il defaultInputLangChars,
      outputLang := orDefault ol defaultOutputLangChars }
    let st₂ :=
      match dm with
      | some d => if d = [] then st₁ else { st₁ with displayMode := d }
      | none => st₁
    startTranslation st₂ connectionOk
  | .stopTranslation => stopTranslation st
  | .checkStatus =>
    (st, { emptyResponse with
             isActive := some st.isTranslationActive,
             inputLang := some st.inputLang,
             outputLang := some st.outputLang,
             displayMode := some st.displayMode })
  | .setDisplayMode dm =>
    let newMode := orDefault dm popupChars
    ({ st with displayMode := newMode },
      { emptyResponse with status := some successChars,
                           displayMode := some newMode })

/-! ## Concrete inputs used by the counterexamples and witnesses -/

/-- `"Alice"`. -/
def aliceChars : List Char := ['A', 'l', 'i', 'c', 'e']

/-- The speaker id of `"Alice"` under `getSpeakerId`. -/
def aliceId : List Char := getSpeakerId aliceChars

/-- `"Hello"`. -/
def helloChars : List Char := ['H', 'e', 'l', 'l', 'o']

/-- `"Hel"` — a substring of `"Hello"`. -/
def helChars : List Char := ['H', 'e', 'l']

/-- A speaker map holding one active entry for Alice whose only segment is
`"Hello"`, last updated at time 1000 (src/src/utils.js entry shape). -/
def c2Speakers : List Char → Option ContEntry :=
  fun s => if s = aliceId then some { segments := [helloChars], lastTime := 1000 } else none

/-- A part_003-shaped speaker map with Alice's full text `"Hello"`. -/
def c2SpeakersP3 : List Char → Option P3Entry :=
  fun s => if s = aliceId then some { fullText := helloChars, lastTime := 1000 } else none

/-- `"abcd"`. -/
def abcdChars : List Char := ['a', 'b', 'c', 'd']

/-- `"abce"` — edit distance 1 from `"abcd"`, neither contains the other. -/
def abceChars : List Char := ['a', 'b', 'c', 'e']

/-- A part_003-shaped speaker map with Alice's full text `"abcd"`. -/
def c3SpeakersP3 : List Char → Option P3Entry :=
  fun s => if s = aliceId then some { fullText := abcdChars, lastTime := 1000 } else none

/-- `"hola"` — a source text used in the translation-service runs. -/
def holaChars : List Char := ['h', 'o', 'l', 'a']

/-- `"hello"` — a network-delivered translation. -/
def helloLowChars : List Char := ['h', 'e', 'l', 'l', 'o']

/-- Distinct source texts used by the consecutive-failure run. -/
def failText1 : List Char := ['t', 'x', '1']

/-- Second distinct source text of the failure run. -/
def failText2 : List Char := ['t', 'x', '2']

/-- Third distinct source text of the failure run. -/
def failText3 : List Char := ['t', 'x', '3']

/-- Fourth distinct source text of the failure run. -/
def failText4 : List Char := ['t', 'x', '4']

/-- The first source text of the speaker's next, independent utterance. -/
def failText5 : List Char := ['t', 'x', '5']

/-- `"en"` / `"ru"` language tags for the runs. -/
def enChars : List Char := ['e', 'n']

/-- `"ru"`. -/
def ruChars : List Char := ['r', 'u']

/-- Both fetch attempts of one `translateText` call fail. -/
def bothFail : List FetchOutcome := [.fail, .fail]

/-- The state after Alice's translation attempts failed four times in a row
(four `translateText` calls, spaced beyond the throttle window), exercising
src/src/translation-service.js lines 161-175. -/
def c6Run4 : TransOut :=
  translateText
    (translateText
      (translateText
        (translateText initialTransState aliceId failText1 enChars ruChars 1000 bothFail).state
        aliceId failText2 enChars ruChars 2000 bothFail).state
      aliceId failText3 enChars ruChars 3000 bothFail).state
    aliceId failText4 enChars ruChars 4000 bothFail

/-- The fifth call: the first fragment of Alice's next utterance, failing
once.  Nothing between the two utterances resets the per-speaker counter. -/
def c6Run5 : TransOut :=
  translateText c6Run4.state aliceId failText5 enChars ruChars 5000 bothFail

/-- The pre-`await` snapshot of Alice's utterance captured by a
`finalizeSpeech` activation that was in flight when `clearSubtitleData` ran. -/
def c7Snapshot : SpeakerEntry :=
  { speaker := aliceChars, fullText := holaChars, lastTime := 100,
    translatedText := translatingChars, utteranceId := 42, active := true,
    avatar := none }

/-- The state after `clear()` completed and its 500 ms clearing window
elapsed. -/
def c7ClearedState : SubState := clearingDone (clearSubtitleData initialSubState)

/-- The in-flight finalization resolving (successfully, with `"hello"`) after
the clear: the continuation of src/src/subtitle-processor.js lines 503-558. -/
def c7AfterResolve : SubState :=
  finalizeResume c7ClearedState aliceId c7Snapshot (some helloLowChars) 9000

/-- A concrete content-script state for the checkStatus counterexample. -/
def c8State : ContentState :=
  { inputLang := defaultInputLangChars, outputLang := defaultOutputLangChars,
    isTranslationActive := true, displayMode := popupChars,
    connectionFailed := false, connectionRetryCount := 0 }

/-- `"hel"`, `"hello"`, `"hello there"`: a growing fragment chain. -/
def frag1 : List Char := ['h', 'e', 'l']

/-- Second fragment of the growing chain. -/
def frag2 : List Char := ['h', 'e', 'l', 'l', 'o']

/-- Third fragment of the growing chain. -/
def frag3 : List Char := ['h', 'e', 'l', 'l', 'o', ' ', 't', 'h', 'e', 'r', 'e']

/-- The C1 witness run: the three growing fragments arrive 200 ms apart. -/
def c1Run : SubState :=
  runFrags aliceChars none none initialSubState
    [(frag1, 1000), (frag2, 1200), (frag3, 1400)]

/-- `"hi"`. -/
def hiChars : List Char := ['h', 'i']

/-- A state that already knows the subtitle text `"hi"`. -/
def c10KnownState : SubState :=
  { initialSubState with knownSubtitles := [hiChars] }

/-! ## C1 chain hypothesis and tracker invariant -/

/-- Relation between consecutive fragments of a C1 chain: the earlier text is
a proper superstring step (the old text is a substring of the new, and the
texts differ — consecutive duplicates never reach the tracker, the
known-subtitles dedup having removed them), and the new fragment arrives
within the segment-timeout window of the previous one. -/
def growStep (a b : List Char × Nat) : Prop :=
  SubstrOf a.1 b.1 ∧ a.1 ≠ b.1 ∧ a.2 ≤ b.2 ∧ b.2 < a.2 + SPEECH_SEGMENT_TIMEOUT

/-- The tracker invariant while a single speaker's utterance grows: one
active entry holding the latest fragment `f` (updated at `t`, created as
utterance `uid`), no other speaker state, every known subtitle no longer than
`f`, no finalized utterances, and exactly one armed finalize timer. -/
def C1Inv (name : List Char) (av : Option (List Char)) (uid : Nat)
    (f : List Char) (t : Nat) (st : SubState) : Prop :=
  st.activeSpeakers (getSpeakerId name) =
      some { speaker := name, fullText := f, lastTime := t,
             translatedText := translatingChars, utteranceId := uid,
             active := true, avatar := av }
  ∧ (∀ s, s ≠ getSpeakerId name → st.activeSpeakers s = none)
  ∧ (∀ g ∈ st.knownSubtitles, g.length ≤ f.length)
  ∧ st.lastFullTextBySpeaker (getSpeakerId name) = some f
  ∧ (∀ s, st.translatedUtterances s = none)
  ∧ st.isClearing = false
  ∧ st.finalizeDeadlines = [(getSpeakerId name, t + SPEECH_SEGMENT_TIMEOUT)]

/-! ## Helper lemmas: strings and association lists -/

/-- `startsWithL` agrees with the mathematical "begins with" relation. -/
theorem startsWithL_iff (pat : List Char) :
    ∀ s, startsWithL s pat = true ↔ ∃ rest, s = pat ++ rest := by
  induction pat with
  | nil => intro s; simp [startsWithL]
  | cons b bs ih =>
    intro s
    cases s with
    | nil => simp [startsWithL]
    | cons a as =>
      simp only [startsWithL, Bool.and_eq_true, beq_iff_eq, List.cons_append,
        List.cons.injEq]
      constructor
      · rintro ⟨rfl, h⟩
        obtain ⟨rest, rfl⟩ := (ih as).1 h
        exact ⟨rest, rfl, rfl⟩
      · rintro ⟨rest, h1, h2⟩
        subst h1
        exact ⟨rfl, (ih as).2 ⟨rest, h2⟩⟩

/-- `jsIncludes` agrees with the mathematical substring relation. -/
theorem jsIncludes_iff (big pat : List Char) :
    jsIncludes big pat = true ↔ SubstrOf pat big := by
  induction big with
  | nil =>
    rw [jsIncludes]
    constructor
    · intro h
      split at h
      · next hs =>
        obtain ⟨rest, hr⟩ := (startsWithL_iff pat []).1 hs
        exact ⟨[], rest, by simpa using hr⟩
      · exact absurd h (by simp)
    · rintro ⟨pre, post, h⟩
      have hp : pat = [] := by
        have := congrArg List.length h
        simp at this
        exact List.eq_nil_of_length_eq_zero (by omega)
      subst hp
      simp [startsWithL]
  | cons b rest ih =>
    rw [jsIncludes]
    constructor
    · intro h
      split at h
      · next hs =>
        obtain ⟨r, hr⟩ := (startsWithL_iff pat (b :: rest)).1 hs
        exact ⟨[], r, by simpa using hr⟩
      · next hs =>
        obtain ⟨pre, post, hp⟩ := ih.1 h
        exact ⟨b :: pre, post, by simp [hp]⟩
    · rintro ⟨pre, post, hp⟩
      cases pre with
      | nil =>
        have hs : startsWithL (b :: rest) pat = true :=
          (startsWithL_iff pat (b :: rest)).2 ⟨post, by simpa using hp⟩
        simp [hs]
      | cons p pre' =>
        split
        · rfl
        · have h2 : rest = pre' ++ (pat ++ post) := by
            have h3 := hp
            simp at h3
            exact h3.2
          exact ih.2 ⟨pre', post, by simp [h2]⟩

/-- A substring is no longer than its containing string. -/
theorem SubstrOf.length_le {pat big : List Char} (h : SubstrOf pat big) :
    pat.length ≤ big.length := by
  obtain ⟨pre, post, rfl⟩ := h
  simp
  omega

/-- A proper substring is strictly shorter. -/
theorem SubstrOf.length_lt {pat big : List Char} (h : SubstrOf pat big)
    (hne : pat ≠ big) : pat.length < big.length := by
  obtain ⟨pre, post, rfl⟩ := h
  rcases pre with _ | ⟨p, pre'⟩
  · rcases post with _ | ⟨q, post'⟩
    · simp at hne
    · simp
  · simp
    omega

/-- The empty string is a substring of everything (as JS `includes` also
reports). -/
theorem SubstrOf.nil (big : List Char) : SubstrOf [] big :=
  ⟨[], big, by simp⟩

/-- Removing the one binding for `k` from a singleton table. -/
theorem aremove_single (k : List Char) (d : Nat) : aremove [(k, d)] k = [] := by
  simp [aremove]

/-- `mapSet` on an absent key appends the new entry. -/
theorem mapSet_append_of_absent (l : List (List Char × List Char))
    (k v : List Char) (h : alookup l k = none) : mapSet l k v = l ++ [(k, v)] := by
  induction l with
  | nil => rfl
  | cons kv rest ih =>
    obtain ⟨k', v'⟩ := kv
    rw [alookup] at h
    rw [mapSet]
    split
    · next he => rw [he] at h; simp at h
    · next he =>
      rw [if_neg he] at h
      simp [ih h]

/-- Lookup passes over a block in which the key does not occur. -/
theorem alookup_append_right (l l₂ : List (List Char × List Char))
    (k : List Char) (h : alookup l k = none) :
    alookup (l ++ l₂) k = alookup l₂ k := by
  induction l with
  | nil => rfl
  | cons kv rest ih =>
    obtain ⟨k', v'⟩ := kv
    rw [alookup] at h
    rw [List.cons_append, alookup]
    split
    · next he => rw [if_pos he] at h; simp at h
    · next he => rw [if_neg he] at h; exact ih h

/-- A key absent from a table is absent from any `drop` of it. -/
theorem alookup_drop_none (n : Nat) :
    ∀ (l : List (List Char × List Char)) (k : List Char),
      alookup l k = none → alookup (l.drop n) k = none := by
  induction n with
  | zero => intro l k h; simpa using h
  | succ n ih =>
    intro l k h
    cases l with
    | nil => simp [alookup]
    | cons kv rest =>
      obtain ⟨k', v'⟩ := kv
      rw [alookup] at h
      rw [List.drop_succ_cons]
      split at h
      · simp at h
      · exact ih rest k h

/-- `mapSet` grows the table by at most one entry. -/
theorem mapSet_length (l : List (List Char × List Char)) (k v : List Char) :
    l.length ≤ (mapSet l k v).length ∧ (mapSet l k v).length ≤ l.length + 1 := by
  induction l with
  | nil => simp [mapSet]
  | cons kv rest ih =>
    obtain ⟨k', v'⟩ := kv
    rw [mapSet]
    split
    · simp
    · simpa using ih

/-- After inserting into a cache in which the key was absent, eviction keeps
the freshly inserted binding findable. -/
theorem alookup_cacheEvict_mapSet (l : List (List Char × List Char))
    (k v : List Char) (h : alookup l k = none) :
    alookup (cacheEvict (mapSet l k v)) k = some v := by
  rw [mapSet_append_of_absent l k v h]
  rw [cacheEvict]
  split
  · next h5 =>
    have hl : 100 ≤ l.length := by
      simp at h5
      omega
    rw [List.drop_append_of_le_length hl,
      alookup_append_right _ _ _ (alookup_drop_none 100 l k h)]
    simp [alookup]
  · rw [alookup_append_right _ _ _ h]
    simp [alookup]

/-! ## C9 — speaker id derivation -/

/-- C9 counterexample: the claim says the id is obtained by lower-casing the
name and replacing non-alphanumerics.  `getSpeakerId` (src/src/utils.js line
39) does not lower-case: on the name `"Alice"` it returns `"speaker_Alice"`,
which differs from the lower-cased derivation `"speaker_alice"`. -/
theorem c9_counterexample :
    getSpeakerId aliceChars = speakerTagChars ++ aliceChars
    ∧ getSpeakerId aliceChars ≠ specLowerSpeakerId aliceChars := by
  constructor <;> decide

/-- C9 (amended): `getSpeakerId` is a deterministic function of the displayed
name that keeps the name's case, replacing every character that is not an
ASCII letter or digit by an underscore: equal names map to equal ids, every
character of the id is alphanumeric or an underscore, the length is the
name's length plus the `"speaker_"` tag, and an already-alphanumeric name is
kept verbatim after the tag. -/
theorem c9_speaker_id_stable (name name' : List Char) (h : name = name') :
    getSpeakerId name = getSpeakerId name'
    ∧ (∀ c ∈ getSpeakerId name, c.isAlpha ∨ c.isDigit ∨ c = '_')
    ∧ (getSpeakerId name).length = 8 + name.length
    ∧ ((∀ c ∈ name, c.isAlpha ∨ c.isDigit) →
        getSpeakerId name = speakerTagChars ++ name) := by
  refine ⟨by rw [h], ?_, ?_, ?_⟩
  · intro c hc
    rw [getSpeakerId, List.mem_append] at hc
    rcases hc with hc | hc
    · have htag : speakerTagChars = ['s', 'p', 'e', 'a', 'k', 'e', 'r', '_'] := by decide
      rw [htag] at hc
      simp only [List.mem_cons, List.not_mem_nil, or_false] at hc
      rcases hc with rfl | rfl | rfl | rfl | rfl | rfl | rfl | rfl <;> decide
    · obtain ⟨a, _, rfl⟩ := List.mem_map.1 hc
      rw [replaceNonAlnum]
      split
      · next ha =>
        rcases Bool.or_eq_true_iff.1 ha with ha | ha
        · exact Or.inl ha
        · exact Or.inr (Or.inl ha)
      · exact Or.inr (Or.inr rfl)
  · rw [getSpeakerId]
    simp [speakerTagChars]
    omega
  · intro hall
    rw [getSpeakerId]
    congr 1
    have : ∀ c ∈ name, replaceNonAlnum c = c := by
      intro c hc
      rcases hall c hc with h1 | h1 <;> simp [replaceNonAlnum, h1]
    rw [List.map_congr_left this]
    exact List.map_id' name

/-- C9 witness: the amended characterization applied to the concrete name
`"Alice"`. -/
theorem c9_witness :
    getSpeakerId aliceChars = getSpeakerId aliceChars
    ∧ (∀ c ∈ getSpeakerId aliceChars, c.isAlpha ∨ c.isDigit ∨ c = '_')
    ∧ (getSpeakerId aliceChars).length = 8 + aliceChars.length
    ∧ ((∀ c ∈ aliceChars, c.isAlpha ∨ c.isDigit) →
        getSpeakerId aliceChars = speakerTagChars ++ aliceChars) :=
  c9_speaker_id_stable aliceChars aliceChars rfl

/-! ## C8 — host message responses -/

/-- C8 counterexample: the claim says every response to the four host
messages carries a `status` field; the response the listener sends for
`checkStatus` (src/src/content.js lines 365-373) has no `status` field at
all. -/
theorem c8_counterexample :
    (handleMessage c8State .checkStatus true).2.status = none := rfl

/-- Shape of every `startTranslation` response. -/
theorem startTranslation_status (st : ContentState) (ok : Bool) :
    (startTranslation st ok).2.status = some successChars
    ∨ ((startTranslation st ok).2.status = some errorChars
        ∧ (startTranslation st ok).2.message = some connectFailChars) := by
  rw [startTranslation]
  split
  · exact Or.inl rfl
  · split
    · exact Or.inl rfl
    · exact Or.inr ⟨rfl, rfl⟩

/-- Shape of every `stopTranslation` response. -/
theorem stopTranslation_status (st : ContentState) :
    (stopTranslation st).2.status = some successChars
    ∨ ((stopTranslation st).2.status = some errorChars
        ∧ (stopTranslation st).2.message = some notActiveChars) := by
  rw [stopTranslation]
  split
  · exact Or.inl rfl
  · exact Or.inr ⟨rfl, rfl⟩

/-- C8 (amended): responses to `startTranslation`, `stopTranslation` and
`setDisplayMode` carry `status ∈ {"success", "error"}` (with a `message` on
the error responses of the first two), while the `checkStatus` response
carries exactly `{isActive, inputLang, outputLang, displayMode}` and no
`status` field. -/
theorem c8_response_shapes (st : ContentState) (ok : Bool)
    (il ol dm dm' : Option (List Char)) :
    ((handleMessage st (.startTranslation il ol dm) ok).2.status = some successChars
      ∨ ((handleMessage st (.startTranslation il ol dm) ok).2.status = some errorChars
          ∧ (handleMessage st (.startTranslation il ol dm) ok).2.message = some connectFailChars))
    ∧ ((handleMessage st .stopTranslation ok).2.status = some successChars
      ∨ ((handleMessage st .stopTranslation ok).2.status = some errorChars
          ∧ (handleMessage st .stopTranslation ok).2.message = some notActiveChars))
    ∧ (handleMessage st (.setDisplayMode dm') ok).2.status = some successChars
    ∧ (handleMessage st .checkStatus ok).2.status = none
    ∧ (handleMessage st .checkStatus ok).2.isActive = some st.isTranslationActive
    ∧ (handleMessage st .checkStatus ok).2.inputLang = some st.inputLang
    ∧ (handleMessage st .checkStatus ok).2.outputLang = some st.outputLang
    ∧ (handleMessage st .checkStatus ok).2.displayMode = some st.displayMode := by
  exact ⟨startTranslation_status _ ok, stopTranslation_status st,
    rfl, rfl, rfl, rfl, rfl, rfl⟩

/-! ## C2 — continuation test and substrings -/

/-- C2 counterexample: Alice has an active entry whose (only) segment is
`"Hello"`, last updated at 1000; the candidate `"Hel"` is a substring of it
and arrives at 1500, well inside the segment timeout, yet the active
continuation test (src/src/utils.js lines 49-74) returns `false`: it only
looks at trailing punctuation and at whether the new text starts lower-case
(`'H'` does not). -/
theorem c2_counterexample :
    Utils.isContinuationOfSpeech c2Speakers aliceId helChars 1500 = false
    ∧ SubstrOf helChars helloChars
    ∧ (1500 : Int) - (1000 : Int) ≤ (SPEECH_SEGMENT_TIMEOUT : Int) := by
  refine ⟨by decide, ⟨[], ['l', 'o'], rfl⟩, by decide⟩

/-- C2 (amended): the substring property holds of the part_003 revision of
the continuation test (src/unnamed/part_003 lines 60-94): for a speaker with
an active entry of nonempty text `P` last updated within the segment timeout,
any candidate `T` with `T` a substring of `P` or `P` a substring of `T` is
classified as a continuation.  The revision active in src/src/utils.js
instead uses a punctuation / lower-case heuristic, so there a substring
relation does not imply continuation. -/
theorem c2_substring_continuation
    (m : List Char → Option P3Entry) (speaker text : List Char) (now : Nat)
    (e : P3Entry) (he : m speaker = some e) (hft : e.fullText ≠ [])
    (ht : (now : Int) - (e.lastTime : Int) ≤ (SPEECH_SEGMENT_TIMEOUT : Int))
    (hsub : SubstrOf text e.fullText ∨ SubstrOf e.fullText text) :
    Utils3.isContinuationOfSpeech m speaker text now = true := by
  rw [Utils3.isContinuationOfSpeech, he]
  dsimp only
  have hinc : (jsIncludes e.fullText text || jsIncludes text e.fullText) = true := by
    rcases hsub with h | h
    · rw [(jsIncludes_iff e.fullText text).2 h, Bool.true_or]
    · rw [(jsIncludes_iff text e.fullText).2 h, Bool.or_true]
  rw [if_neg hft, if_neg (not_lt.mpr ht), if_pos hinc]

/-- C2 witness: the part_003 test on the concrete map (`P = "Hello"`, last
update 1000) accepts the substring candidate `"Hel"` at time 1500. -/
theorem c2_witness :
    Utils3.isContinuationOfSpeech c2SpeakersP3 aliceId helChars 1500 = true :=
  c2_substring_continuation c2SpeakersP3 aliceId helChars 1500
    { fullText := helloChars, lastTime := 1000 } rfl (by decide)
    (by decide) (Or.inl ⟨[], ['l', 'o'], rfl⟩)

/-! ## C7 — clear versus in-flight translations -/

/-- C7 counterexample: a `finalizeSpeech` activation for Alice was awaiting
its forced translation when `clearSubtitleData` ran; the 500 ms clearing
window then elapsed (`isClearing` back to `false`), and only afterwards does
the in-flight call resolve.  The continuation (src/src/subtitle-processor.js
lines 503-558) re-adds a finalized utterance for Alice and re-installs an
active-speaker slot for her — state reappears after `clear()`, contradicting
the claim that no entry for the speaker reappears in either map. -/
theorem c7_counterexample :
    (c7AfterResolve.translatedUtterances aliceId).isSome = true
    ∧ (c7AfterResolve.activeSpeakers aliceId).isSome = true
    ∧ (c7ClearedState.translatedUtterances aliceId).isSome = false
    ∧ (c7ClearedState.activeSpeakers aliceId).isSome = false := by
  refine ⟨rfl, by decide, rfl, rfl⟩

/-- C7 (amended): an in-flight translation resolved through the per-utterance
update path (`translateAndUpdateUtterance`, src/src/subtitle-processor.js
lines 408-470) is discarded after `clear()`: its resume handler re-checks the
active-speaker map, and since `clearSubtitleData` emptied both maps, the
resolution leaves the state untouched.  (An in-flight `finalizeSpeech`, by
contrast, can reintroduce entries — see the counterexample.) -/
theorem c7_resume_discarded (st st₂ : SubState) (sp txt : List Char)
    (tr : Option (List Char)) (now : Nat)
    (h : st.activeSpeakers sp = none) :
    translateAndUpdateResume st sp txt tr now = st
    ∧ (∀ s, (clearSubtitleData st₂).activeSpeakers s = none)
    ∧ (∀ s, (clearSubtitleData st₂).translatedUtterances s = none) := by
  refine ⟨?_, fun _ => rfl, fun _ => rfl⟩
  rw [translateAndUpdateResume, h]

/-- C7 witness: the resume of an in-flight per-utterance translation for
Alice, arriving after the clear, leaves the cleared state unchanged. -/
theorem c7_witness :
    translateAndUpdateResume c7ClearedState aliceId holaChars (some helloLowChars) 9000
      = c7ClearedState :=
  (c7_resume_discarded c7ClearedState initialSubState aliceId holaChars
    (some helloLowChars) 9000 rfl).1

/-! ## C10 — known-subtitles dedup -/

/-- `scheduleTranslation` never touches the known-subtitles set. -/
theorem scheduleTranslation_knownSubtitles (st : SubState) (sp : List Char) :
    (scheduleTranslation st sp).knownSubtitles = st.knownSubtitles := by
  simp only [scheduleTranslation]
  split
  · split <;> rfl
  · rfl

/-- `observeText` never touches the known-subtitles set. -/
theorem observeText_knownSubtitles (st : SubState) (name : List Char)
    (av : Option (List Char)) (text : List Char) (now : Nat) :
    (observeText st name av text now).knownSubtitles = st.knownSubtitles := by
  rw [observeText]
  split
  · rfl
  · split
    · rw [continueSpeech, scheduleTranslation_knownSubtitles]
      split <;> rfl
    · rw [newSpeech, scheduleTranslation_knownSubtitles]

/-- C10: once a raw caption text has been observed it is recorded in the
known-subtitles set and an identical later observation is a no-op (for any
speaker); processing only grows the set; finalizing an utterance never removes
anything from it; only `resetKnownSubtitles` and `clearSubtitleData` empty
it. -/
theorem c10_known_subtitles_dedup (act : Bool) (st : SubState)
    (name : List Char) (av : Option (List Char)) (text : List Char)
    (now : Nat) (sp : List Char) (now' : Nat) (tr : Option (List Char)) :
    (text ∈ st.knownSubtitles → processSubtitles act st name av text now = st)
    ∧ (act = true → st.isClearing = false → text ≠ [] →
        text ∈ (processSubtitles act st name av text now).knownSubtitles)
    ∧ (∀ g ∈ st.knownSubtitles,
        g ∈ (processSubtitles act st name av text now).knownSubtitles)
    ∧ (finalizeSpeech st sp now' tr).knownSubtitles = st.knownSubtitles
    ∧ (resetKnownSubtitles st).knownSubtitles = []
    ∧ (clearSubtitleData st).knownSubtitles = [] := by
  have hobs : ∀ st' : SubState,
      (processSubtitles act st' name av text now).knownSubtitles = st'.knownSubtitles
      ∨ (processSubtitles act st' name av text now).knownSubtitles
          = text :: st'.knownSubtitles := by
    intro st'
    rw [processSubtitles]
    split
    · exact Or.inl rfl
    · split
      · exact Or.inl rfl
      · rw [observeText_knownSubtitles]
        exact Or.inr rfl
  refine ⟨?_, ?_, ?_, ?_, rfl, rfl⟩
  · intro h
    rw [processSubtitles]
    split
    · rfl
    · rw [if_pos (Or.inr h)]
  · intro ha hc hne
    subst ha
    rcases hobs st with h | h <;> rw [h]
    · -- the set is unchanged only because the text was already known
      rw [processSubtitles] at h
      rw [if_neg (by simp [hc])] at h
      by_cases hk : text ∈ st.knownSubtitles
      · exact hk
      · rw [if_neg (by simp [hne, hk]), observeText_knownSubtitles] at h
        exact absurd h (by simp)
    · exact List.mem_cons_self text _
  · intro g hg
    rcases hobs st with h | h <;> rw [h]
    · exact hg
    · exact List.mem_cons_of_mem text hg
  · rw [finalizeSpeech.eq_def]
    split
    · rfl
    · dsimp only
      split <;> rfl

/-- C10 witness: a state that already knows `"hi"` drops the repeated text,
and a fresh observation of `"hi"` records it. -/
theorem c10_witness :
    processSubtitles true c10KnownState aliceChars none hiChars 5 = c10KnownState
    ∧ hiChars ∈ (processSubtitles true initialSubState aliceChars none hiChars 5).knownSubtitles :=
  ⟨(c10_known_subtitles_dedup true c10KnownState aliceChars none hiChars 5
      aliceId 0 none).1 (by decide),
    (c10_known_subtitles_dedup true initialSubState aliceChars none hiChars 5
      aliceId 0 none).2.1 rfl rfl (by decide)⟩

/-! ## Translation-service path lemmas -/

/-- A cache hit returns immediately: no state change, no fetch
(src/src/translation-service.js lines 27-30). -/
theorem translateText_cache_hit (st : TransState) (sp text il ol : List Char)
    (now : Nat) (outs : List FetchOutcome) (v : List Char)
    (h2 : ¬ text.length < 2)
    (hhit : alookup st.translationCache (cacheKeyOf il ol text) = some v) :
    translateText st sp text il ol now outs = ⟨st, some v, 0⟩ := by
  simp only [translateText, if_neg h2, hhit]

/-- The dispatch path of `translateText` (cache miss, throttle window clear):
the request time is recorded, then the fetch loop runs; success trims the
content, caches it (with eviction) and zeroes the speaker's retry counter;
failure increments the retry counter and returns a sentinel. -/
theorem translateText_dispatch (st : TransState) (sp text il ol : List Char)
    (now : Nat) (outs : List FetchOutcome)
    (h2 : ¬ text.length < 2)
    (hmiss : alookup st.translationCache (cacheKeyOf il ol text) = none)
    (hthr : ∀ last, st.lastTranslationRequestTime sp = some last →
        ¬ ((now : Int) - (last : Int) < (TRANSLATION_THROTTLE : Int))) :
    translateText st sp text il ol now outs =
      match runAttempts (outs.take (MAX_RETRIES + 1)) with
      | (some content, n) =>
        ⟨{ st with
             lastTranslationRequestTime :=
               updF st.lastTranslationRequestTime sp (some now),
             translationCache :=
               cacheEvict (mapSet st.translationCache (cacheKeyOf il ol text)
                 (trimL content)),
             translationRetryCount :=
               fun s => if s = sp then 0 else st.translationRetryCount s },
          some (trimL content), n⟩
      | (none, n) =>
        ⟨{ st with
             lastTranslationRequestTime :=
               updF st.lastTranslationRequestTime sp (some now),
             translationRetryCount :=
               fun s => if s = sp then st.translationRetryCount sp + 1
                 else st.translationRetryCount s },
          some (if 3 < st.translationRetryCount sp + 1 then unavailableChars
            else translatingChars), n⟩ := by
  rcases hlast : st.lastTranslationRequestTime sp with _ | last
  · simp only [translateText, if_neg h2, hmiss, hlast]
    rcases hra : runAttempts (outs.take (MAX_RETRIES + 1)) with ⟨r, n⟩
    rcases r with _ | content
    · simp [hra]
      split <;> rfl
    · simp [hra]
  · have hnl := hthr last hlast
    simp only [translateText, if_neg h2, hmiss, hlast, hnl]
    rcases hra : runAttempts (outs.take (MAX_RETRIES + 1)) with ⟨r, n⟩
    rcases r with _ | content
    · simp [hra, hnl]
      split <;> rfl
    · simp [hra, hnl]

/-! ## C4 — cache round trip -/

/-- C4: two `translateText` calls with identical arguments, the first of which
dispatches and succeeds on its first fetch, issue exactly one network call in
total: the second call is answered from the cache under the key
`inputLang:outputLang:text` with the same translated string, and it changes
nothing. -/
theorem c4_cache_round_trip (st : TransState) (sp text il ol : List Char)
    (now₁ now₂ : Nat) (c : List Char) (rest outs₂ : List FetchOutcome)
    (hlen : 2 ≤ text.length)
    (hmiss : alookup st.translationCache (cacheKeyOf il ol text) = none)
    (hthr : ∀ last, st.lastTranslationRequestTime sp = some last →
        (TRANSLATION_THROTTLE : Int) ≤ (now₁ : Int) - (last : Int)) :
    (translateText st sp text il ol now₁ (.ok c :: rest)).fetches = 1
    ∧ (translateText st sp text il ol now₁ (.ok c :: rest)).ret = some (trimL c)
    ∧ (translateText (translateText st sp text il ol now₁ (.ok c :: rest)).state
        sp text il ol now₂ outs₂).fetches = 0
    ∧ (translateText (translateText st sp text il ol now₁ (.ok c :: rest)).state
        sp text il ol now₂ outs₂).ret
      = (translateText st sp text il ol now₁ (.ok c :: rest)).ret
    ∧ (translateText (translateText st sp text il ol now₁ (.ok c :: rest)).state
        sp text il ol now₂ outs₂).state
      = (translateText st sp text il ol now₁ (.ok c :: rest)).state := by
  have h2 : ¬ text.length < 2 := by omega
  have hthr' : ∀ last, st.lastTranslationRequestTime sp = some last →
      ¬ ((now₁ : Int) - (last : Int) < (TRANSLATION_THROTTLE : Int)) :=
    fun last hl => not_lt.mpr (hthr last hl)
  have h1 := translateText_dispatch st sp text il ol now₁ (.ok c :: rest) h2 hmiss hthr'
  have hra : runAttempts ((FetchOutcome.ok c :: rest).take (MAX_RETRIES + 1))
      = (some c, 1) := rfl
  rw [hra] at h1
  rw [h1]
  have hhit := translateText_cache_hit
    ({ st with
         lastTranslationRequestTime :=
           updF st.lastTranslationRequestTime sp (some now₁),
         translationCache :=
           cacheEvict (mapSet st.translationCache (cacheKeyOf il ol text)
             (trimL c)),
         translationRetryCount :=
           fun s => if s = sp then 0 else st.translationRetryCount s })
    sp text il ol now₂ outs₂ (trimL c) h2
    (alookup_cacheEvict_mapSet st.translationCache (cacheKeyOf il ol text)
      (trimL c) hmiss)
  rw [hhit]
  exact ⟨rfl, rfl, rfl, rfl, rfl⟩

/-- C4 witness: concrete round trip from the empty service state, translating
`"hola"` with network content `"hello"`. -/
theorem c4_witness :
    (translateText initialTransState aliceId holaChars enChars ruChars 1000
      [.ok helloLowChars]).fetches = 1
    ∧ (translateText (translateText initialTransState aliceId holaChars enChars
        ruChars 1000 [.ok helloLowChars]).state aliceId holaChars enChars ruChars
        1100 [.ok helloLowChars]).fetches = 0
    ∧ (translateText (translateText initialTransState aliceId holaChars enChars
        ruChars 1000 [.ok helloLowChars]).state aliceId holaChars enChars ruChars
        1100 [.ok helloLowChars]).ret
      = (translateText initialTransState aliceId holaChars enChars ruChars 1000
        [.ok helloLowChars]).ret := by
  have h := c4_cache_round_trip initialTransState aliceId holaChars enChars
    ruChars 1000 1100 helloLowChars [] [.ok helloLowChars] (by decide) rfl
    (by intro last hl; exact absurd hl (by simp [initialTransState]))
  exact ⟨h.1, h.2.2.1, h.2.2.2.1⟩

/-! ## C5 — cache bound and eviction discipline -/

/-- Every `translateText` call either leaves the cache untouched or performs
a single `set`-then-evict insertion. -/
theorem translateText_cache_cases (st : TransState) (sp text il ol : List Char)
    (now : Nat) (outs : List FetchOutcome) :
    (translateText st sp text il ol now outs).state.translationCache
        = st.translationCache
    ∨ ∃ k v, (translateText st sp text il ol now outs).state.translationCache
        = cacheEvict (mapSet st.translationCache k v) := by
  by_cases h2 : text.length < 2
  · left
    simp only [translateText, if_pos h2]
  · rcases hl : alookup st.translationCache (cacheKeyOf il ol text) with _ | v
    · rcases hlast : st.lastTranslationRequestTime sp with _ | last
      · have hd := translateText_dispatch st sp text il ol now outs h2 hl
          (fun l hll => by rw [hlast] at hll; cases hll)
        rcases hra : runAttempts (outs.take (MAX_RETRIES + 1)) with ⟨r, n⟩
        rw [hra] at hd
        rcases r with _ | content
        · left
          rw [hd]
        · right
          exact ⟨_, _, by rw [hd]⟩
      · by_cases hth : (now : Int) - (last : Int) < (TRANSLATION_THROTTLE : Int)
        · left
          simp only [translateText, if_neg h2, hl, hlast]
          rcases hp : st.pendingTranslations sp with _ | p <;> simp [hp, hth]
        · have hd := translateText_dispatch st sp text il ol now outs h2 hl
            (fun l hll => by
              rw [hlast] at hll
              injection hll with he
              subst he
              exact hth)
          rcases hra : runAttempts (outs.take (MAX_RETRIES + 1)) with ⟨r, n⟩
          rw [hra] at hd
          rcases r with _ | content
          · left
            rw [hd]
          · right
            exact ⟨_, _, by rw [hd]⟩
    · left
      rw [translateText_cache_hit st sp text il ol now outs v h2 hl]

/-- C5: the translation cache is bounded by 500 after any call completes
(given it was within bounds before); entries are only ever removed by the
over-capacity eviction, which removes exactly the 100 oldest-inserted entries
and only when an insertion pushed the size beyond 500; and
`clearTranslationTimers` (the time-driven reset path) never touches the
cache. -/
theorem c5_cache_memoization (st : TransState) (sp text il ol : List Char)
    (now : Nat) (outs : List FetchOutcome)
    (hbound : st.translationCache.length ≤ 500) :
    (translateText st sp text il ol now outs).state.translationCache.length ≤ 500
    ∧ ((translateText st sp text il ol now outs).state.translationCache
          = st.translationCache
        ∨ ∃ k v removed,
            mapSet st.translationCache k v
              = removed ++ (translateText st sp text il ol now outs).state.translationCache
            ∧ ((removed = [] ∧ (mapSet st.translationCache k v).length ≤ 500)
                ∨ (removed.length = 100
                    ∧ 500 < (mapSet st.translationCache k v).length)))
    ∧ (clearTranslationTimers st).translationCache = st.translationCache := by
  have hcases := translateText_cache_cases st sp text il ol now outs
  refine ⟨?_, ?_, rfl⟩
  · rcases hcases with h | ⟨k, v, h⟩
    · rw [h]; exact hbound
    · rw [h, cacheEvict]
      have hms := mapSet_length st.translationCache k v
      split
      · rw [List.length_drop]
        omega
      · omega
  · rcases hcases with h | ⟨k, v, h⟩
    · exact Or.inl h
    · right
      refine ⟨k, v, ?_⟩
      rw [h, cacheEvict]
      split
      · next h5 =>
        refine ⟨(mapSet st.translationCache k v).take 100,
          (List.take_append_drop 100 _).symm, Or.inr ⟨?_, h5⟩⟩
        rw [List.length_take]
        omega
      · next h5 => exact ⟨[], by simp, Or.inl ⟨rfl, by omega⟩⟩

/-- C5 witness: the invariants instantiated on the empty state, for a call
that performs an insertion. -/
theorem c5_witness :
    (translateText initialTransState aliceId holaChars enChars ruChars 1000
      [.ok helloLowChars]).state.translationCache.length ≤ 500
    ∧ (clearTranslationTimers initialTransState).translationCache
      = initialTransState.translationCache := by
  have h := c5_cache_memoization initialTransState aliceId holaChars enChars
    ruChars 1000 [.ok helloLowChars] (by decide)
  exact ⟨h.1, h.2.2⟩

/-! ## C6 — per-speaker failure counter -/

/-- C6 (amended): `translateText` keeps a per-speaker consecutive-failure
counter: a dispatched call whose fetch loop fails increments the speaker's
counter, returns the `"[Translation unavailable]"` sentinel exactly when the
counter has exceeded 3 (and the `"Translating..."` placeholder otherwise),
and schedules no retry of its own (the pending slot and throttle timer are
untouched); a successful call resets the counter to zero.  The counter is
(deliberately) keyed by speaker only: no reset happens when a new utterance
starts — only a success, or `clearTranslationTimers`, clears it. -/
theorem c6_failure_counter (st : TransState) (sp text il ol : List Char)
    (now : Nat) (outs : List FetchOutcome)
    (hlen : 2 ≤ text.length)
    (hmiss : alookup st.translationCache (cacheKeyOf il ol text) = none)
    (hthr : ∀ last, st.lastTranslationRequestTime sp = some last →
        (TRANSLATION_THROTTLE : Int) ≤ (now : Int) - (last : Int)) :
    ((runAttempts (outs.take (MAX_RETRIES + 1))).1 = none →
      (translateText st sp text il ol now outs).state.translationRetryCount sp
          = st.translationRetryCount sp + 1
      ∧ (3 < st.translationRetryCount sp + 1 →
          (translateText st sp text il ol now outs).ret = some unavailableChars)
      ∧ (st.translationRetryCount sp + 1 ≤ 3 →
          (translateText st sp text il ol now outs).ret = some translatingChars)
      ∧ (translateText st sp text il ol now outs).state.pendingTranslations sp
          = st.pendingTranslations sp
      ∧ (translateText st sp text il ol now outs).state.translateTimerPending sp
          = st.translateTimerPending sp)
    ∧ (∀ content, (runAttempts (outs.take (MAX_RETRIES + 1))).1 = some content →
        (translateText st sp text il ol now outs).state.translationRetryCount sp = 0
        ∧ (translateText st sp text il ol now outs).ret = some (trimL content))
    ∧ (clearTranslationTimers st).translationRetryCount sp = 0 := by
  have h2 : ¬ text.length < 2 := by omega
  have hthr' : ∀ last, st.lastTranslationRequestTime sp = some last →
      ¬ ((now : Int) - (last : Int) < (TRANSLATION_THROTTLE : Int)) :=
    fun last hl => not_lt.mpr (hthr last hl)
  have hd := translateText_dispatch st sp text il ol now outs h2 hmiss hthr'
  rcases hra : runAttempts (outs.take (MAX_RETRIES + 1)) with ⟨r, n⟩
  rw [hra] at hd
  rcases r with _ | content
  · rw [hd]
    refine ⟨fun _ => ⟨by simp, fun h3 => ?_, fun h3 => ?_, rfl, rfl⟩,
      fun content hc => by simp at hc, rfl⟩
    · simp [if_pos h3]
    · simp [if_neg (by omega : ¬ 3 < st.translationRetryCount sp + 1)]
  · rw [hd]
    refine ⟨fun hc => by simp at hc, fun c hc => ?_, rfl⟩
    simp at hc
    subst hc
    exact ⟨by simp, rfl⟩

/-- C6 witness: the first failing call from the fresh state sets Alice's
counter to 1 and returns the placeholder, not yet the unavailable
sentinel. -/
theorem c6_witness :
    (translateText initialTransState aliceId failText1 enChars ruChars 1000
      bothFail).state.translationRetryCount aliceId
        = initialTransState.translationRetryCount aliceId + 1
    ∧ (translateText initialTransState aliceId failText1 enChars ruChars 1000
        bothFail).ret = some translatingChars := by
  have h := (c6_failure_counter initialTransState aliceId failText1 enChars
    ruChars 1000 bothFail (by decide) rfl
    (by intro last hl; exact absurd hl (by simp [initialTransState]))).1 rfl
  exact ⟨h.1, h.2.2.1 (by decide)⟩

/-- C6 counterexample: four consecutive failed calls for Alice leave her
counter at 4 and surface the unavailable sentinel (that much matches the
claim), but the next utterance's first call for the same speaker starts from
the inherited counter: its very first failure pushes the counter to 5 and
immediately returns `"[Translation unavailable]"`, whereas the claim's
"begins with its failure counter at zero" would give counter 1 and the
`"Translating..."` placeholder. -/
theorem c6_counterexample :
    c6Run4.ret = some unavailableChars
    ∧ c6Run5.state.translationRetryCount aliceId = 5
    ∧ c6Run5.ret = some unavailableChars
    ∧ ¬ (c6Run5.state.translationRetryCount aliceId = 1)
    ∧ ¬ (c6Run5.ret = some translatingChars) := by
  refine ⟨by decide, by decide, by decide, by decide, by decide⟩

/-! ## C1 — one growing utterance per speaker -/

/-- The first fragment from a fresh state establishes the tracker
invariant. -/
theorem c1_base (name : List Char) (av tr : Option (List Char))
    (f₀ : List Char) (t₀ : Nat) (hne : f₀ ≠ []) :
    C1Inv name av t₀ f₀ t₀ (tick name av tr initialSubState (f₀, t₀)) := by
  rw [show tick name av tr initialSubState (f₀, t₀)
      = processSubtitles true initialSubState name av f₀ t₀ from rfl]
  rw [processSubtitles, if_neg (by simp [initialSubState]),
    if_neg (by simp [initialSubState, hne])]
  simp only [C1Inv]
  refine ⟨?_, ?_, ?_, ?_, ?_, ?_, ?_⟩
  · simp [observeText, newSpeech, scheduleTranslation, initialSubState,
      updF, updB, aset, aremove, translatingChars, ellipsisChars]
  · intro s hs
    simp [observeText, newSpeech, scheduleTranslation, initialSubState,
      updF, updB, aset, aremove, hs, translatingChars, ellipsisChars]
  · intro g hg
    simp [observeText, newSpeech, scheduleTranslation, initialSubState,
      updF, updB, aset, aremove, translatingChars, ellipsisChars] at hg
    simp [hg]
  · simp [observeText, newSpeech, scheduleTranslation, initialSubState,
      updF, updB, aset, aremove, translatingChars, ellipsisChars]
  · intro s
    simp [observeText, newSpeech, scheduleTranslation, initialSubState,
      updF, updB, aset, aremove, translatingChars, ellipsisChars]
  · simp [observeText, newSpeech, scheduleTranslation, initialSubState,
      updF, updB, aset, aremove, translatingChars, ellipsisChars]
  · simp [observeText, newSpeech, scheduleTranslation, initialSubState,
      updF, updB, aset, aremove, translatingChars, ellipsisChars]

/-- One further in-window, properly growing fragment preserves the tracker
invariant: the text is replaced (never appended), the timer re-armed, and no
finalization happens. -/
theorem c1_step (name : List Char) (av tr : Option (List Char)) (uid : Nat)
    (f : List Char) (t : Nat) (st : SubState) (f' : List Char) (t' : Nat)
    (hinv : C1Inv name av uid f t st) (hg : growStep (f, t) (f', t')) :
    C1Inv name av uid f' t' (tick name av tr st (f', t')) := by
  obtain ⟨h1, h2, h3, h4, h5, h6, h7⟩ := hinv
  simp only [growStep] at hg
  obtain ⟨hsub, hne', hle, hlt⟩ := hg
  have hlen : f.length < f'.length := hsub.length_lt hne'
  have hfd : fireDue st t' tr = st := by
    rw [fireDue, h7]
    simp only [List.foldl_cons, List.foldl_nil]
    rw [if_neg (by omega)]
  rw [show tick name av tr st (f', t')
      = processSubtitles true (fireDue st t' tr) name av f' t' from rfl, hfd]
  have hne2 : f' ≠ [] := by
    intro h
    rw [h] at hlen
    simp at hlen
  have hnm : f' ∉ st.knownSubtitles := by
    intro hmem
    have := h3 f' hmem
    omega
  rw [processSubtitles, if_neg (by simp [h6]), if_neg (by simp [hne2, hnm])]
  simp only [C1Inv]
  refine ⟨?_, ?_, ?_, ?_, ?_, ?_, ?_⟩
  · simp [observeText, continueSpeech, scheduleTranslation, updF, updB,
      aset, aremove, h1, h4, h6, hne', hlen]
  · intro s hs
    simp [observeText, continueSpeech, scheduleTranslation, updF, updB,
      aset, aremove, h1, h4, hne', hlen, hs, h2 s hs]
  · intro g hg
    rw [observeText_knownSubtitles] at hg
    simp at hg
    rcases hg with rfl | hg
    · exact le_refl _
    · exact le_trans (h3 g hg) (le_of_lt hlen)
  · simp [observeText, continueSpeech, scheduleTranslation, updF, updB,
      aset, aremove, h1, h4, hne', hlen]
  · intro s
    simp [observeText, continueSpeech, scheduleTranslation, updF, updB,
      aset, aremove, h1, h4, hne', hlen, h5 s]
  · simp [observeText, continueSpeech, scheduleTranslation, updF, updB,
      aset, aremove, h1, h4, hne', hlen, h6]
  · simp [observeText, continueSpeech, scheduleTranslation, updF, updB,
      aset, aremove, h1, h4, h7, hne', hlen]

/-- Folding a whole chain of growing, in-window fragments preserves the
invariant, ending at the last fragment. -/
theorem c1_chain (name : List Char) (av tr : Option (List Char)) (uid : Nat) :
    ∀ (frags : List (List Char × Nat)) (f : List Char) (t : Nat) (st : SubState),
      C1Inv name av uid f t st →
      List.Chain' growStep ((f, t) :: frags) →
      C1Inv name av uid
        (((f, t) :: frags).getLast (List.cons_ne_nil _ _)).1
        (((f, t) :: frags).getLast (List.cons_ne_nil _ _)).2
        (runFrags name av tr st frags) := by
  intro frags
  induction frags with
  | nil =>
    intro f t st hinv _
    simpa [runFrags] using hinv
  | cons ft rest ih =>
    intro f t st hinv hch
    obtain ⟨f', t'⟩ := ft
    rw [List.chain'_cons] at hch
    have hstep := c1_step name av tr uid f t st f' t' hinv hch.1
    have hrec := ih f' t' (tick name av tr st (f', t')) hstep hch.2
    simpa [runFrags, List.getLast_cons] using hrec

/-- C1: a sequence of fragments from one speaker, each arriving within the
segment-timeout window of the previous and each a proper textual superstring
of the previous (the upstream dedup removes exact duplicates before the
tracker sees them), produces exactly one Active utterance for that speaker:
its `sourceText` is the final fragment (the text is replaced, never
appended), its identity is the one created at the first fragment, no other
speaker has an entry, and nothing was finalized. -/
theorem c1_single_growing_utterance (name : List Char)
    (av tr : Option (List Char)) (f₀ : List Char) (t₀ : Nat)
    (rest : List (List Char × Nat)) (hne : f₀ ≠ [])
    (hch : List.Chain' growStep ((f₀, t₀) :: rest)) :
    ∃ e : SpeakerEntry,
      (runFrags name av tr initialSubState ((f₀, t₀) :: rest)).activeSpeakers
          (getSpeakerId name) = some e
      ∧ e.fullText = (((f₀, t₀) :: rest).getLast (List.cons_ne_nil _ _)).1
      ∧ e.utteranceId = t₀
      ∧ e.active = true
      ∧ (∀ s, s ≠ getSpeakerId name →
          (runFrags name av tr initialSubState ((f₀, t₀) :: rest)).activeSpeakers s
            = none)
      ∧ (∀ s,
          (runFrags name av tr initialSubState ((f₀, t₀) :: rest)).translatedUtterances s
            = none) := by
  have hbase := c1_base name av tr f₀ t₀ hne
  have hch' : List.Chain' growStep ((f₀, t₀) :: rest) := hch
  have h := c1_chain name av tr t₀ rest f₀ t₀
    (tick name av tr initialSubState (f₀, t₀)) hbase hch'
  rw [show runFrags name av tr initialSubState ((f₀, t₀) :: rest)
      = runFrags name av tr (tick name av tr initialSubState (f₀, t₀)) rest from rfl]
  obtain ⟨ha, hb, _, _, he, _, _⟩ := h
  exact ⟨_, ha, rfl, rfl, rfl, hb, he⟩

/-- C1 witness: the fragments `"hel"`, `"hello"`, `"hello there"` arriving
200 ms apart leave exactly one Active utterance for Alice whose text is the
last fragment, with no finalized utterances. -/
theorem c1_witness :
    ∃ e : SpeakerEntry,
      c1Run.activeSpeakers (getSpeakerId aliceChars) = some e
      ∧ e.fullText = frag3 ∧ e.utteranceId = 1000 ∧ e.active = true
      ∧ (∀ s, s ≠ getSpeakerId aliceChars → c1Run.activeSpeakers s = none)
      ∧ (∀ s, c1Run.translatedUtterances s = none) := by
  have h := c1_single_growing_utterance aliceChars none none frag1 1000
    [(frag2, 1200), (frag3, 1400)] (by decide)
    (by
      rw [List.chain'_cons, List.chain'_cons]
      refine ⟨⟨⟨[], ['l', 'o'], rfl⟩, by decide, by decide, by decide⟩,
        ⟨⟨[], [' ', 't', 'h', 'e', 'r', 'e'], rfl⟩, by decide, by decide, by decide⟩,
        List.chain'_singleton _⟩)
  simpa [c1Run] using h

/-! ## C3 — Levenshtein correctness: basic facts about `levR` -/

/-- Distance to the empty string is the length. -/
theorem levR_nil_right : ∀ xs : List Char, levR xs [] = xs.length := by
  intro xs
  cases xs <;> simp [levR]

/-- The distance from a string to itself is zero. -/
theorem levR_self : ∀ xs : List Char, levR xs xs = 0 := by
  intro xs
  induction xs with
  | nil => simp [levR]
  | cons x xs ih =>
    simp [levR, ih]

/-- Appending one more character to the target costs at most one. -/
theorem levR_le_insert_right (xs : List Char) (y : Char) (zs : List Char) :
    levR xs (y :: zs) ≤ levR xs zs + 1 := by
  cases xs with
  | nil => simp [levR]
  | cons x xs' =>
    simp only [levR]
    omega

/-! ### Single edits and edit sequences -/

/-- An edit step survives prefixing both strings with the same character. -/
theorem EditStep.consStep {xs ys : List Char} (c : Char) (h : EditStep xs ys) :
    EditStep (c :: xs) (c :: ys) := by
  cases h with
  | ins pre post d => exact EditStep.ins (c :: pre) post d
  | del pre post d => exact EditStep.del (c :: pre) post d
  | subst pre post d e => exact EditStep.subst (c :: pre) post d e

/-- An edit sequence survives prefixing both strings with the same
character. -/
theorem EditN.consSeq {n : Nat} {xs ys : List Char} (h : EditN n xs ys)
    (c : Char) : EditN n (c :: xs) (c :: ys) := by
  induction h with
  | zero xs => exact EditN.zero _
  | succ n a b d hs _ ih => exact EditN.succ n _ _ _ (hs.consStep c) ih

/-- An edit sequence can be extended by one step at its end. -/
theorem EditN.snocSeq {n : Nat} {xs ys zs : List Char} (h : EditN n xs ys)
    (hs : EditStep ys zs) : EditN (n + 1) xs zs := by
  induction h with
  | zero xs => exact EditN.succ 0 _ _ _ hs (EditN.zero _)
  | succ n a b d h1 _ ih => exact EditN.succ (n + 1) _ _ _ h1 (ih hs)

/-- Any string is reachable from the empty string by one insertion per
character. -/
theorem EditN_nil_left : ∀ ys : List Char, EditN ys.length [] ys := by
  intro ys
  induction ys with
  | nil => exact EditN.zero []
  | cons y ys ih =>
    exact EditN.succ ys.length _ _ _ (EditStep.ins [] [] y) (ih.consSeq y)

/-- Any string reaches the empty string by one deletion per character. -/
theorem EditN_nil_right : ∀ xs : List Char, EditN xs.length xs [] := by
  intro xs
  induction xs with
  | nil => exact EditN.zero []
  | cons x xs ih =>
    exact EditN.succ xs.length _ _ _ (EditStep.del [] xs x) ih

/-- Achievability: `levR xs ys` edits always suffice to turn `xs` into
`ys`. -/
theorem EditN_levR (xs ys : List Char) : EditN (levR xs ys) xs ys := by
  have main : ∀ (n : Nat) (xs ys : List Char), xs.length + ys.length ≤ n →
      EditN (levR xs ys) xs ys := by
    intro n
    induction n with
    | zero =>
      intro xs ys h
      have hx : xs = [] := List.eq_nil_of_length_eq_zero (by omega)
      have hy : ys = [] := List.eq_nil_of_length_eq_zero (by omega)
      subst hx; subst hy
      simpa [levR] using EditN.zero ([] : List Char)
    | succ n ih =>
      intro xs ys h
      cases xs with
      | nil =>
        have : levR [] ys = ys.length := by simp [levR]
        rw [this]
        exact EditN_nil_left ys
      | cons x xs' =>
        cases ys with
        | nil =>
          rw [levR_nil_right]
          exact EditN_nil_right _
        | cons y ys' =>
          have hb1 : (x :: xs').length + ys'.length ≤ n := by
            simp at h ⊢
            omega
          have hb2 : xs'.length + (y :: ys').length ≤ n := by
            simp at h ⊢
            omega
          have hb3 : xs'.length + ys'.length ≤ n := by
            simp at h ⊢
            omega
          have h1 : EditN (levR (x :: xs') ys' + 1) (x :: xs') (y :: ys') :=
            (ih (x :: xs') ys' hb1).snocSeq (EditStep.ins [] ys' y)
          have h2 : EditN (levR xs' (y :: ys') + 1) (x :: xs') (y :: ys') :=
            EditN.succ _ _ _ _ (EditStep.del [] xs' x) (ih xs' (y :: ys') hb2)
          have h3 : EditN (levR xs' ys' + (if x = y then 0 else 1))
              (x :: xs') (y :: ys') := by
            by_cases hxy : x = y
            · subst hxy
              simpa [if_pos] using (ih xs' ys' hb3).consSeq x
            · rw [if_neg hxy]
              exact EditN.succ _ _ _ _ (EditStep.subst [] xs' x y)
                ((ih xs' ys' hb3).consSeq y)
          have hm : levR (x :: xs') (y :: ys')
              = min (levR (x :: xs') ys' + 1)
                  (min (levR xs' (y :: ys') + 1)
                    (levR xs' ys' + (if x = y then 0 else 1))) := by
            simp [levR]
          rw [hm]
          rcases (by omega :
              min (levR (x :: xs') ys' + 1)
                  (min (levR xs' (y :: ys') + 1)
                    (levR xs' ys' + (if x = y then 0 else 1)))
                = levR (x :: xs') ys' + 1
              ∨ min (levR (x :: xs') ys' + 1)
                  (min (levR xs' (y :: ys') + 1)
                    (levR xs' ys' + (if x = y then 0 else 1)))
                = levR xs' (y :: ys') + 1
              ∨ min (levR (x :: xs') ys' + 1)
                  (min (levR xs' (y :: ys') + 1)
                    (levR xs' ys' + (if x = y then 0 else 1)))
                = levR xs' ys' + (if x = y then 0 else 1)) with hc | hc | hc
          · rw [hc]; exact h1
          · rw [hc]; exact h2
          · rw [hc]; exact h3
  exact main (xs.length + ys.length) xs ys le_rfl

/-! ### Minimality: a single edit changes `levR` by at most one -/

/-- Lipschitz step under a common head: if replacing `l₁` by `l₂` costs at
most one against every target, the same holds with a common head
prepended. -/
theorem levR_cons_lip (p : Char) (l₁ l₂ : List Char)
    (h : ∀ z, levR l₁ z ≤ levR l₂ z + 1) :
    ∀ z, levR (p :: l₁) z ≤ levR (p :: l₂) z + 1 := by
  intro z
  induction z with
  | nil =>
    have h0 := h []
    rw [levR_nil_right, levR_nil_right] at h0
    rw [levR_nil_right, levR_nil_right]
    simp at h0 ⊢
    omega
  | cons y zs ih =>
    have h1 := h (y :: zs)
    have h2 := h zs
    by_cases hpy : p = y
    · simp only [levR, if_pos hpy]
      omega
    · simp only [levR, if_neg hpy]
      omega

/-- Deleting a leading character costs at most one. -/
theorem levR_cons_le (c : Char) (post : List Char) :
    ∀ z, levR (c :: post) z ≤ levR post z + 1 := by
  intro z
  cases z with
  | nil =>
    rw [levR_nil_right, levR_nil_right]
    simp
  | cons y zs =>
    simp only [levR]
    omega

/-- Inserting a leading character costs at most one. -/
theorem levR_le_cons (c : Char) (post : List Char) :
    ∀ z, levR post z ≤ levR (c :: post) z + 1 := by
  intro z
  induction z with
  | nil =>
    rw [levR_nil_right, levR_nil_right]
    simp
    omega
  | cons y zs ih =>
    have hD := levR_le_insert_right post y zs
    by_cases hcy : c = y
    · simp only [levR, if_pos hcy]
      omega
    · simp only [levR, if_neg hcy]
      omega

/-- Substituting the leading character costs at most one. -/
theorem levR_subst_le (c d : Char) (post : List Char) :
    ∀ z, levR (c :: post) z ≤ levR (d :: post) z + 1 := by
  intro z
  induction z with
  | nil =>
    rw [levR_nil_right, levR_nil_right]
    simp
  | cons y zs ih =>
    by_cases hcy : c = y
    · by_cases hdy : d = y
      · simp only [levR, if_pos hcy, if_pos hdy]
        omega
      · simp only [levR, if_pos hcy, if_neg hdy]
        omega
    · by_cases hdy : d = y
      · simp only [levR, if_neg hcy, if_pos hdy]
        omega
      · simp only [levR, if_neg hcy, if_neg hdy]
        omega

/-- One arbitrary-position edit changes `levR` against any fixed target by
at most one. -/
theorem EditStep.levRStep_le {xs ys : List Char} (h : EditStep xs ys) :
    ∀ z, levR xs z ≤ levR ys z + 1 := by
  cases h with
  | ins pre post c =>
    induction pre with
    | nil => exact levR_le_cons c post
    | cons p pre' ih => exact levR_cons_lip p _ _ ih
  | del pre post c =>
    induction pre with
    | nil => exact levR_cons_le c post
    | cons p pre' ih => exact levR_cons_lip p _ _ ih
  | subst pre post c d =>
    induction pre with
    | nil => exact levR_subst_le c d post
    | cons p pre' ih => exact levR_cons_lip p _ _ ih

/-- Minimality: no edit sequence is shorter than `levR`. -/
theorem EditN.levRSeq_le {n : Nat} {xs ys : List Char} (h : EditN n xs ys) :
    levR xs ys ≤ n := by
  induction h with
  | zero xs => rw [levR_self]
  | succ n a b c hs _ ih =>
    have := hs.levRStep_le c
    omega

/-! ### Transport along reversal -/

/-- Reversing both strings preserves single edits. -/
theorem EditStep.reverseStep {xs ys : List Char} (h : EditStep xs ys) :
    EditStep xs.reverse ys.reverse := by
  cases h with
  | ins pre post c =>
    simp only [List.reverse_append, List.reverse_cons, List.append_assoc,
      List.singleton_append]
    exact EditStep.ins post.reverse pre.reverse c
  | del pre post c =>
    simp only [List.reverse_append, List.reverse_cons, List.append_assoc,
      List.singleton_append]
    exact EditStep.del post.reverse pre.reverse c
  | subst pre post c d =>
    simp only [List.reverse_append, List.reverse_cons, List.append_assoc,
      List.singleton_append]
    exact EditStep.subst post.reverse pre.reverse c d

/-- Reversing both strings preserves edit sequences and their length. -/
theorem EditN.reverseSeq {n : Nat} {xs ys : List Char} (h : EditN n xs ys) :
    EditN n xs.reverse ys.reverse := by
  induction h with
  | zero xs => exact EditN.zero _
  | succ n a b c hs _ ih => exact EditN.succ n _ _ _ hs.reverseStep ih

/-! ### The JS matrix computes `levR` of reversed prefixes -/

/-- Distance from the empty string is the length. -/
theorem levR_nil_left (ys : List Char) : levR [] ys = ys.length := by
  simp [levR]

/-- `matrix[i][j]` is the distance between the length-`j` prefix of `a` and
the length-`i` prefix of `b` (as `levR` of their reversals). -/
theorem levMatrix_eq_levR (a b : List Char) :
    ∀ (i : Nat), i ≤ b.length → ∀ (j : Nat), j ≤ a.length →
      levMatrix a b i j = levR ((a.take j).reverse) ((b.take i).reverse) := by
  intro i
  induction i with
  | zero =>
    intro _ j hj
    have h1 : levMatrix a b 0 j = j := rfl
    rw [h1, List.take_zero, List.reverse_nil, levR_nil_right]
    simp [List.length_take]
    omega
  | succ i ihi =>
    intro hi j
    induction j with
    | zero =>
      intro _
      have h1 : levMatrix a b (i + 1) 0 = i + 1 := rfl
      rw [h1, List.take_zero, List.reverse_nil, levR_nil_left]
      simp [List.length_take]
      omega
    | succ j ihj =>
      intro hj
      have hj' : j < a.length := by omega
      have hi' : i < b.length := by omega
      have hta : (a.take (j + 1)).reverse = a[j] :: (a.take j).reverse := by
        rw [List.take_succ, List.getElem?_eq_getElem hj']
        simp
      have htb : (b.take (i + 1)).reverse = b[i] :: (b.take i).reverse := by
        rw [List.take_succ, List.getElem?_eq_getElem hi']
        simp
      have hcell : levMatrix a b (i + 1) (j + 1)
          = min (levMatrix a b i (j + 1) + 1)
              (min (levMatrix a b (i + 1) j + 1)
                (levMatrix a b i j + (if a[j]? = b[i]? then 0 else 1))) := rfl
      have hlev : levR ((a.take (j + 1)).reverse) ((b.take (i + 1)).reverse)
          = min (levR ((a.take (j + 1)).reverse) ((b.take i).reverse) + 1)
              (min (levR ((a.take j).reverse) ((b.take (i + 1)).reverse) + 1)
                (levR ((a.take j).reverse) ((b.take i).reverse)
                  + (if a[j] = b[i] then 0 else 1))) := by
        rw [hta, htb]
        simp [levR]
      have hcost : (if a[j]? = b[i]? then (0 : Nat) else 1)
          = (if a[j] = b[i] then (0 : Nat) else 1) := by
        rw [List.getElem?_eq_getElem hj', List.getElem?_eq_getElem hi']
        simp
      rw [hcell, hlev, hcost,
        ihi (by omega) (j + 1) hj,
        ihi (by omega) j (by omega),
        ihj (by omega)]

/-- `levenshteinDistance` equals `levR` of the reversed inputs. -/
theorem levenshteinDistance_eq_levR (a b : List Char) :
    levenshteinDistance a b = levR a.reverse b.reverse := by
  rw [levenshteinDistance]
  split
  · next ha =>
    have h0 : a = [] := List.eq_nil_of_length_eq_zero ha
    subst h0
    rw [List.reverse_nil, levR_nil_left]
    simp
  · next ha =>
    split
    · next hb =>
      have h0 : b = [] := List.eq_nil_of_length_eq_zero hb
      subst h0
      rw [List.reverse_nil, levR_nil_right]
      simp
    · next hb =>
      rw [levMatrix_eq_levR a b b.length le_rfl a.length le_rfl]
      simp [List.take_length]

/-! ### C3 main theorem -/

/-- C3: `levenshteinDistance` (part_003 lines 102-129) computes the
Levenshtein edit distance — `levenshteinDistance a b` single-character
insertions, deletions and substitutions turn `a` into `b`, and no shorter
edit sequence does; and when neither of `P` and `T` contains the other and
the segment timeout has not elapsed, the part_003 continuation test returns
true exactly when `levenshteinDistance P T / max |P| |T|` is below the 0.3
threshold (stated as the exact comparison `10·d < 3·max`, which the IEEE-754
evaluation agrees with for all representable lengths). -/
theorem c3_levenshtein_and_threshold :
    (∀ a b : List Char,
      EditN (levenshteinDistance a b) a b
      ∧ ∀ m, EditN m a b → levenshteinDistance a b ≤ m)
    ∧ (∀ (m : List Char → Option P3Entry) (speaker text : List Char)
        (now : Nat) (e : P3Entry), m speaker = some e →
        (now : Int) - (e.lastTime : Int) ≤ (SPEECH_SEGMENT_TIMEOUT : Int) →
        ¬ SubstrOf text e.fullText → ¬ SubstrOf e.fullText text →
        (Utils3.isContinuationOfSpeech m speaker text now = true ↔
          10 * levenshteinDistance e.fullText text
            < 3 * max e.fullText.length text.length)) := by
  constructor
  · intro a b
    rw [levenshteinDistance_eq_levR]
    constructor
    · have h := (EditN_levR a.reverse b.reverse).reverseSeq
      simpa using h
    · intro m hm
      exact hm.reverseSeq.levRSeq_le
  · intro m speaker text now e he ht hs1 hs2
    have hft : e.fullText ≠ [] := fun h => hs2 (h ▸ SubstrOf.nil text)
    rw [Utils3.isContinuationOfSpeech, he]
    dsimp only
    rw [if_neg hft, if_neg (not_lt.mpr ht)]
    have hb1 : jsIncludes e.fullText text = false := by
      by_cases hb : jsIncludes e.fullText text = true
      · exact absurd ((jsIncludes_iff _ _).1 hb) hs1
      · simpa using hb
    have hb2 : jsIncludes text e.fullText = false := by
      by_cases hb : jsIncludes text e.fullText = true
      · exact absurd ((jsIncludes_iff _ _).1 hb) hs2
      · simpa using hb
    rw [if_neg (by simp [hb1, hb2])]
    have hsw : startsWithL text e.fullText = false := by
      by_cases hb : startsWithL text e.fullText = true
      · obtain ⟨r, hr⟩ := (startsWithL_iff _ _).1 hb
        exact absurd ⟨[], r, by simpa using hr⟩ hs2
      · simpa using hb
    rw [if_neg (by simp [hsw])]
    constructor
    · intro h
      by_contra hcond
      rw [if_neg hcond] at h
      exact Bool.false_ne_true h
    · intro hcond
      rw [if_pos hcond]

/-- C3 witness: `P = "abcd"`, `T = "abce"` — neither contains the other, the
distance is 1, the ratio 1/4 is below 0.3, and the part_003 test classifies
`T` as a continuation at time 1500 (entry last updated at 1000). -/
theorem c3_witness :
    Utils3.isContinuationOfSpeech c3SpeakersP3 aliceId abceChars 1500 = true
    ∧ 10 * levenshteinDistance abcdChars abceChars
        < 3 * max abcdChars.length abceChars.length
    ∧ EditN (levenshteinDistance abcdChars abceChars) abcdChars abceChars := by
  have hns1 : ¬ SubstrOf abceChars abcdChars := fun hs =>
    absurd ((jsIncludes_iff abcdChars abceChars).2 hs) (by decide)
  have hns2 : ¬ SubstrOf abcdChars abceChars := fun hs =>
    absurd ((jsIncludes_iff abceChars abcdChars).2 hs) (by decide)
  have hiff := c3_levenshtein_and_threshold.2 c3SpeakersP3 aliceId abceChars
    1500 { fullText := abcdChars, lastTime := 1000 } rfl (by decide) hns1 hns2
  have hratio : 10 * levenshteinDistance abcdChars abceChars
      < 3 * max abcdChars.length abceChars.length := by decide
  exact ⟨hiff.2 hratio, hratio,
    (c3_levenshtein_and_threshold.1 abcdChars abceChars).1⟩
